import Mathlib

/-!
Verification of the ASCII video engine (`js/ascii-video-engine.js`) and the
metamorphosis canvas animation (`js/metamorphosis-canvas.js`) of the
dem-systems website.

Modelling conventions:
* JavaScript numbers are rationals, with the IEEE-754 binary64 rounding
  made explicit where it matters.  `calculateLuminance` evaluates
  `0.2126*r + 0.7152*g + 0.0722*b` exactly the way doubles do: `flRound`
  rounds an exact rational to the nearest binary64 value (ties to even)
  and is applied to each decimal literal, each product and each
  left-to-right sum; `Math.round` (`jsRound`) then picks the integer
  nearest to the resulting double value, ties toward positive infinity.
  Every value reached here lies in the normal finite double range, where
  `flRound` is exactly the IEEE rounding.
* The error-diffusion arithmetic of the dithers (integer errors scaled by
  sixteenths, or by `/3` and `/8` at points where no rounding boundary is
  near) is exact in doubles, so plain rational arithmetic models it;
  stores into a `Uint8ClampedArray` clamp to `[0, 255]` and round
  half-to-even (`clampByte` below), per the ECMAScript conversion rules.
* The ramp scaling of `rampIndex` keeps exact rationals; for the ramp
  lengths of the character sets in this repository, and for the
  monotonicity and endpoint facts proved about it, this agrees with the
  double evaluation.
* An `ImageData` pixel buffer is a flat RGBA byte array, modelled as a
  total function `ℕ → ℕ` holding byte values, indexed by
  `(y * width + x) * 4 + channel` exactly as in the source.
-/

/-- JS `Math.round` applied to the exact value of a double: the nearest
integer, ties toward positive infinity. -/
def jsRound (q : ℚ) : ℤ := ⌊q + 1 / 2⌋

/-- Round to the nearest integer, ties to the even integer: the rounding
used both inside binary64 rounding (`flRound`) and by `Uint8ClampedArray`
stores (`clampByte`). -/
def roundTiesToEven (q : ℚ) : ℤ :=
  if q - ⌊q⌋ < 1 / 2 then ⌊q⌋
  else if 1 / 2 < q - ⌊q⌋ then ⌊q⌋ + 1
  else if Even ⌊q⌋ then ⌊q⌋ else ⌊q⌋ + 1

/-- Round a rational to the nearest IEEE-754 binary64 value
(round-to-nearest, ties-to-even): scale by the unit in the last place of
the binade of `q` and round ties-to-even.  For the values arising here —
`0` and positive numbers in the normal finite range — this is exactly the
IEEE double rounding. -/
def flRound (q : ℚ) : ℚ :=
  if q ≤ 0 then 0
  else (roundTiesToEven (q / 2 ^ (Int.log 2 q - 52)) : ℚ) * 2 ^ (Int.log 2 q - 52)

/-- The binary64 value of the literal `0.2126`. -/
def c0_2126 : ℚ := 7659722246231740 / 2 ^ 55

/-- The binary64 value of the literal `0.7152`. -/
def c0_7152 : ℚ := 6441948906990757 / 2 ^ 53

/-- The binary64 value of the literal `0.0722`. -/
def c0_0722 : ℚ := 5202558289538397 / 2 ^ 56

/-- Function `calculateLuminance(r, g, b)`: the Rec. 709 weighted sum
`Math.round(0.2126 * r + 0.7152 * g + 0.0722 * b)` as evaluated in IEEE
double precision — every product and left-to-right sum is rounded to the
nearest double before `Math.round` is applied. -/
def calculateLuminance (r g b : ℕ) : ℤ :=
  jsRound (flRound (flRound (flRound (c0_2126 * r) + flRound (c0_7152 * g)) +
    flRound (c0_0722 * b)))

/-- A JS `ImageData`: dimensions plus the flat RGBA data array. -/
structure ImageData where
  width : ℕ
  height : ℕ
  data : ℕ → ℕ

/-- The index computation of `charForLuminance` for a ramp of length `len ≥ 2`:
clamp the luminance to `[0, 255]`, scale to `[0, len)`, floor, cap at
`len - 1`, and mirror when `invert` is set. -/
def rampIndex (luminance : ℤ) (len : ℕ) (invert : Bool) : ℤ :=
  let clamped : ℤ := max 0 (min 255 luminance)
  let index : ℤ := min ⌊(clamped : ℚ) / 255 * (len : ℚ)⌋ ((len : ℤ) - 1)
  if invert then (len : ℤ) - 1 - index else index

/-- Function `charForLuminance(luminance, characters, invert)`. -/
def charForLuminance (luminance : ℤ) (characters : List Char) (invert : Bool) : Char :=
  let len := characters.length
  if len = 0 then ' '
  else if len = 1 then characters.getD 0 ' '
  else characters.getD (rampIndex luminance len invert).toNat ' '

/-- Function `mapLuminance(imageData, characters, invert)`: one output character per
pixel, row by row. -/
def mapLuminance (img : ImageData) (characters : List Char) (invert : Bool) :
    List (List Char) :=
  (List.range img.height).map fun y =>
    (List.range img.width).map fun x =>
      let idx := (y * img.width + x) * 4
      charForLuminance
        (calculateLuminance (img.data idx) (img.data (idx + 1)) (img.data (idx + 2)))
        characters invert

/-- Function `getPixelLuminance(data, width, height, x, y)`: luminance of pixel
`(x, y)`, returning `0` for out-of-bounds coordinates. -/
def getPixelLuminance (data : ℕ → ℕ) (width height : ℕ) (x y : ℤ) : ℤ :=
  if x < 0 ∨ (width : ℤ) ≤ x ∨ y < 0 ∨ (height : ℤ) ≤ y then 0
  else
    let idx := (y.toNat * width + x.toNat) * 4
    calculateLuminance (data idx) (data (idx + 1)) (data (idx + 2))

/-- The `simple` character set `" .:-=+*#%@"`. -/
def simpleCharacters : List Char :=
  [' ', '.', ':', '-', '=', '+', '*', '#', '%', '@']

/-- A 4×4 all-white RGBA buffer. -/
def whiteImage4 : ImageData := ⟨4, 4, fun _ => 255⟩

lemma jsRound_mono {p q : ℚ} (h : p ≤ q) : jsRound p ≤ jsRound q :=
  Int.floor_le_floor (by linarith)

lemma jsRound_nonneg {q : ℚ} (h : 0 ≤ q) : 0 ≤ jsRound q := by
  have h0 : jsRound 0 = 0 := by
    unfold jsRound
    rw [zero_add]
    rw [Int.floor_eq_iff] <;> norm_num
  calc (0 : ℤ) = jsRound 0 := h0.symm
    _ ≤ jsRound q := jsRound_mono h


lemma roundTiesToEven_le (q : ℚ) : (roundTiesToEven q : ℚ) ≤ q + 1 / 2 := by
  unfold roundTiesToEven
  have hf := Int.floor_le q
  split_ifs with h1 h2 h3
  · linarith
  · push_cast
    linarith
  · linarith
  · push_cast
    push_neg at h1
    linarith

lemma le_roundTiesToEven (q : ℚ) : q - 1 / 2 ≤ (roundTiesToEven q : ℚ) := by
  unfold roundTiesToEven
  have hc := Int.lt_floor_add_one q
  split_ifs with h1 h2 h3
  · linarith
  · push_cast
    linarith
  · push_neg at h2
    linarith
  · push_cast
    linarith

lemma roundTiesToEven_nonneg {q : ℚ} (h : 0 ≤ q) : 0 ≤ roundTiesToEven q := by
  unfold roundTiesToEven
  have hf : 0 ≤ ⌊q⌋ := Int.floor_nonneg.2 h
  split_ifs <;> omega

lemma roundTiesToEven_mono {p q : ℚ} (h : p ≤ q) :
    roundTiesToEven p ≤ roundTiesToEven q := by
  by_contra hc
  push_neg at hc
  have h1 : (roundTiesToEven q : ℚ) + 1 ≤ (roundTiesToEven p : ℚ) := by
    exact_mod_cast Int.lt_iff_add_one_le.mp hc
  have h2 := roundTiesToEven_le p
  have h3 := le_roundTiesToEven q
  have hqp : q ≤ p := by linarith
  have hpq : p = q := le_antisymm h hqp
  subst hpq
  exact absurd hc (lt_irrefl _)

lemma intLog2_eq {q : ℚ} (hq : 0 < q) {e : ℤ} (h1 : (2:ℚ) ^ e ≤ q)
    (h2 : q < (2:ℚ) ^ (e + 1)) : Int.log 2 q = e := by
  have hb : ((2:ℕ):ℚ) = (2:ℚ) := by norm_num
  have hlow := Int.zpow_log_le_self (by norm_num : (1:ℕ) < 2) hq
  have hhigh := Int.lt_zpow_succ_log_self (by norm_num : (1:ℕ) < 2) q
  rw [hb] at hlow hhigh
  have h3 : (2:ℚ) ^ Int.log 2 q < (2:ℚ) ^ (e + 1) := lt_of_le_of_lt hlow h2
  have h4 : (2:ℚ) ^ e < (2:ℚ) ^ (Int.log 2 q + 1) := lt_of_le_of_lt h1 hhigh
  have h5 : Int.log 2 q < e + 1 := by
    by_contra hc
    push_neg at hc
    exact absurd (zpow_le_zpow_right₀ (by norm_num : (1:ℚ) ≤ 2) hc) (not_le.2 h3)
  have h6 : e < Int.log 2 q + 1 := by
    by_contra hc
    push_neg at hc
    exact absurd (zpow_le_zpow_right₀ (by norm_num : (1:ℚ) ≤ 2) hc) (not_le.2 h4)
  omega

lemma flRound_zero : flRound 0 = 0 := by
  unfold flRound
  rw [if_pos le_rfl]

lemma flRound_nonneg (q : ℚ) : 0 ≤ flRound q := by
  unfold flRound
  split_ifs with h
  · exact le_rfl
  · push_neg at h
    refine mul_nonneg ?_ (by positivity)
    exact_mod_cast roundTiesToEven_nonneg (by positivity)

lemma flRound_of_binade (q : ℚ) (e m : ℤ) (hq : 0 < q)
    (h1 : (2:ℚ) ^ e ≤ q) (h2 : q < (2:ℚ) ^ (e + 1))
    (hrte : roundTiesToEven (q / 2 ^ (e - 52)) = m) :
    flRound q = (m : ℚ) * 2 ^ (e - 52) := by
  unfold flRound
  rw [if_neg (not_le.2 hq), intLog2_eq hq h1 h2, hrte]

lemma flRound_upper {q : ℚ} (hq : 0 < q) :
    flRound q ≤ (2:ℚ) ^ (Int.log 2 q + 1) := by
  have hhigh := Int.lt_zpow_succ_log_self (by norm_num : (1:ℕ) < 2) q
  rw [show ((2:ℕ):ℚ) = (2:ℚ) from by norm_num] at hhigh
  unfold flRound
  rw [if_neg (not_le.2 hq)]
  have hpos : (0:ℚ) < 2 ^ (Int.log 2 q - 52) := by positivity
  have hsplit : (9007199254740992:ℚ) * 2 ^ (Int.log 2 q - 52) =
      2 ^ (Int.log 2 q + 1) := by
    rw [show (9007199254740992:ℚ) = 2 ^ (53:ℤ) from by norm_num,
      ← zpow_add₀ (by norm_num : (2:ℚ) ≠ 0),
      show (53:ℤ) + (Int.log 2 q - 52) = Int.log 2 q + 1 from by ring]
  have hlt : q / 2 ^ (Int.log 2 q - 52) < 9007199254740992 := by
    rw [div_lt_iff hpos]
    calc q < 2 ^ (Int.log 2 q + 1) := hhigh
      _ = 9007199254740992 * 2 ^ (Int.log 2 q - 52) := hsplit.symm
  have hint : roundTiesToEven (q / 2 ^ (Int.log 2 q - 52)) ≤ 9007199254740992 := by
    have ha := roundTiesToEven_le (q / 2 ^ (Int.log 2 q - 52))
    have hb2 : (roundTiesToEven (q / 2 ^ (Int.log 2 q - 52)) : ℚ) <
        9007199254740993 := by linarith
    have hb3 : roundTiesToEven (q / 2 ^ (Int.log 2 q - 52)) < 9007199254740993 := by
      exact_mod_cast hb2
    omega
  calc (roundTiesToEven (q / 2 ^ (Int.log 2 q - 52)) : ℚ) * 2 ^ (Int.log 2 q - 52)
      ≤ 9007199254740992 * 2 ^ (Int.log 2 q - 52) := by
        refine mul_le_mul_of_nonneg_right ?_ hpos.le
        exact_mod_cast hint
    _ = 2 ^ (Int.log 2 q + 1) := hsplit

lemma flRound_lower {q : ℚ} (hq : 0 < q) :
    (2:ℚ) ^ Int.log 2 q ≤ flRound q := by
  have hlow := Int.zpow_log_le_self (by norm_num : (1:ℕ) < 2) hq
  rw [show ((2:ℕ):ℚ) = (2:ℚ) from by norm_num] at hlow
  unfold flRound
  rw [if_neg (not_le.2 hq)]
  have hpos : (0:ℚ) < 2 ^ (Int.log 2 q - 52) := by positivity
  have hsplit : (4503599627370496:ℚ) * 2 ^ (Int.log 2 q - 52) =
      2 ^ Int.log 2 q := by
    rw [show (4503599627370496:ℚ) = 2 ^ (52:ℤ) from by norm_num,
      ← zpow_add₀ (by norm_num : (2:ℚ) ≠ 0),
      show (52:ℤ) + (Int.log 2 q - 52) = Int.log 2 q from by ring]
  have hge : (4503599627370496:ℚ) ≤ q / 2 ^ (Int.log 2 q - 52) := by
    rw [le_div_iff hpos]
    calc (4503599627370496:ℚ) * 2 ^ (Int.log 2 q - 52)
        = 2 ^ Int.log 2 q := hsplit
      _ ≤ q := hlow
  have hint : (4503599627370496:ℤ) ≤ roundTiesToEven (q / 2 ^ (Int.log 2 q - 52)) := by
    have ha := le_roundTiesToEven (q / 2 ^ (Int.log 2 q - 52))
    have hb2 : (4503599627370495:ℚ) <
        (roundTiesToEven (q / 2 ^ (Int.log 2 q - 52)) : ℚ) := by linarith
    have hb3 : (4503599627370495:ℤ) <
        roundTiesToEven (q / 2 ^ (Int.log 2 q - 52)) := by exact_mod_cast hb2
    omega
  calc (2:ℚ) ^ Int.log 2 q
      = 4503599627370496 * 2 ^ (Int.log 2 q - 52) := hsplit.symm
    _ ≤ (roundTiesToEven (q / 2 ^ (Int.log 2 q - 52)) : ℚ) * 2 ^ (Int.log 2 q - 52) := by
        refine mul_le_mul_of_nonneg_right ?_ hpos.le
        exact_mod_cast hint

lemma flRound_mono {p q : ℚ} (h : p ≤ q) : flRound p ≤ flRound q := by
  rcases le_or_lt p 0 with hp | hp
  · rw [show flRound p = 0 from by unfold flRound; rw [if_pos hp]]
    exact flRound_nonneg q
  · have hq : 0 < q := lt_of_lt_of_le hp h
    have hle : Int.log 2 p ≤ Int.log 2 q := Int.log_mono_right hp h
    rcases eq_or_lt_of_le hle with heq | hlt
    · unfold flRound
      rw [if_neg (not_le.2 hp), if_neg (not_le.2 hq), ← heq]
      have hpos : (0:ℚ) < 2 ^ (Int.log 2 p - 52) := by positivity
      refine mul_le_mul_of_nonneg_right ?_ hpos.le
      have harg : p / 2 ^ (Int.log 2 p - 52) ≤ q / 2 ^ (Int.log 2 p - 52) := by
        gcongr
      have hmono := roundTiesToEven_mono harg
      exact_mod_cast hmono
    · calc flRound p ≤ (2:ℚ) ^ (Int.log 2 p + 1) := flRound_upper hp
        _ ≤ (2:ℚ) ^ Int.log 2 q :=
            zpow_le_zpow_right₀ (by norm_num : (1:ℚ) ≤ 2) (by omega)
        _ ≤ flRound q := flRound_lower hq

lemma flRound_c2126 : flRound (2126 / 10000) = c0_2126 := by
  rw [flRound_of_binade ((2126:ℚ) / 10000) (-3) 7659722246231740
    (by norm_num) (by norm_num) (by norm_num) (by norm_num [roundTiesToEven])]
  norm_num [c0_2126]

lemma flRound_c7152 : flRound (7152 / 10000) = c0_7152 := by
  rw [flRound_of_binade ((7152:ℚ) / 10000) (-1) 6441948906990757
    (by norm_num) (by norm_num) (by norm_num) (by norm_num [roundTiesToEven])]
  norm_num [c0_7152]

lemma flRound_c0722 : flRound (722 / 10000) = c0_0722 := by
  rw [flRound_of_binade ((722:ℚ) / 10000) (-4) 5202558289538397
    (by norm_num) (by norm_num) (by norm_num) (by norm_num [roundTiesToEven])]
  norm_num [c0_0722]

lemma calculateLuminance_mono {r g b r2 g2 b2 : ℕ} (hr : r ≤ r2) (hg : g ≤ g2)
    (hb : b ≤ b2) : calculateLuminance r g b ≤ calculateLuminance r2 g2 b2 := by
  have hr2 : (r : ℚ) ≤ r2 := by exact_mod_cast hr
  have hg2 : (g : ℚ) ≤ g2 := by exact_mod_cast hg
  have hb2 : (b : ℚ) ≤ b2 := by exact_mod_cast hb
  have hc1 : (0:ℚ) ≤ c0_2126 := by norm_num [c0_2126]
  have hc2 : (0:ℚ) ≤ c0_7152 := by norm_num [c0_7152]
  have hc3 : (0:ℚ) ≤ c0_0722 := by norm_num [c0_0722]
  unfold calculateLuminance
  apply jsRound_mono
  apply flRound_mono
  apply add_le_add
  · apply flRound_mono
    apply add_le_add
    · exact flRound_mono (mul_le_mul_of_nonneg_left hr2 hc1)
    · exact flRound_mono (mul_le_mul_of_nonneg_left hg2 hc2)
  · exact flRound_mono (mul_le_mul_of_nonneg_left hb2 hc3)

lemma calculateLuminance_black : calculateLuminance 0 0 0 = 0 := by
  unfold calculateLuminance
  norm_num [flRound_zero, jsRound]

lemma calculateLuminance_white : calculateLuminance 255 255 255 = 255 := by
  have hw1 : flRound (c0_2126 * ((255:ℕ):ℚ)) =
      ((7629801456207397:ℤ):ℚ) * 2 ^ ((5:ℤ) - 52) :=
    flRound_of_binade (c0_2126 * ((255:ℕ):ℚ)) 5 7629801456207397
      (by norm_num [c0_2126]) (by norm_num [c0_2126]) (by norm_num [c0_2126])
      (by norm_num [roundTiesToEven, c0_2126])
  have hw2 : flRound (c0_7152 * ((255:ℕ):ℚ)) =
      ((6416785044072824:ℤ):ℚ) * 2 ^ ((7:ℤ) - 52) :=
    flRound_of_binade (c0_7152 * ((255:ℕ):ℚ)) 7 6416785044072824
      (by norm_num [c0_7152]) (by norm_num [c0_7152]) (by norm_num [c0_7152])
      (by norm_num [roundTiesToEven, c0_7152])
  have hw3 : flRound (c0_0722 * ((255:ℕ):ℚ)) =
      ((5182235796219888:ℤ):ℚ) * 2 ^ ((4:ℤ) - 52) :=
    flRound_of_binade (c0_0722 * ((255:ℕ):ℚ)) 4 5182235796219888
      (by norm_num [c0_0722]) (by norm_num [c0_0722]) (by norm_num [c0_0722])
      (by norm_num [roundTiesToEven, c0_0722])
  have hs1 : flRound (((7629801456207397:ℤ):ℚ) * 2 ^ ((5:ℤ) - 52) +
      ((6416785044072824:ℤ):ℚ) * 2 ^ ((7:ℤ) - 52)) =
      ((8324235408124673:ℤ):ℚ) * 2 ^ ((7:ℤ) - 52) :=
    flRound_of_binade _ 7 8324235408124673
      (by norm_num) (by norm_num) (by norm_num) (by norm_num [roundTiesToEven])
  have hs2 : flRound (((8324235408124673:ℤ):ℚ) * 2 ^ ((7:ℤ) - 52) +
      ((5182235796219888:ℤ):ℚ) * 2 ^ ((4:ℤ) - 52)) =
      ((8972014882652159:ℤ):ℚ) * 2 ^ ((7:ℤ) - 52) :=
    flRound_of_binade _ 7 8972014882652159
      (by norm_num) (by norm_num) (by norm_num) (by norm_num [roundTiesToEven])
  unfold calculateLuminance
  rw [hw1, hw2, hw3, hs1, hs2]
  unfold jsRound
  norm_num

lemma calculateLuminance_tie : calculateLuminance 0 14 76 = 15 := by
  have hp2 : flRound (c0_7152 * ((14:ℕ):ℚ)) =
      ((5636705293616912:ℤ):ℚ) * 2 ^ ((3:ℤ) - 52) :=
    flRound_of_binade (c0_7152 * ((14:ℕ):ℚ)) 3 5636705293616912
      (by norm_num [c0_7152]) (by norm_num [c0_7152]) (by norm_num [c0_7152])
      (by norm_num [roundTiesToEven, c0_7152])
  have hp3 : flRound (c0_0722 * ((76:ℕ):ℚ)) =
      ((6178037968826846:ℤ):ℚ) * 2 ^ ((2:ℤ) - 52) :=
    flRound_of_binade (c0_0722 * ((76:ℕ):ℚ)) 2 6178037968826846
      (by norm_num [c0_0722]) (by norm_num [c0_0722]) (by norm_num [c0_0722])
      (by norm_num [roundTiesToEven, c0_0722])
  have hz : c0_2126 * ((0:ℕ):ℚ) = 0 := by norm_num
  have hs1 : flRound (((5636705293616912:ℤ):ℚ) * 2 ^ ((3:ℤ) - 52)) =
      ((5636705293616912:ℤ):ℚ) * 2 ^ ((3:ℤ) - 52) :=
    flRound_of_binade _ 3 5636705293616912
      (by norm_num) (by norm_num) (by norm_num) (by norm_num [roundTiesToEven])
  have hs2 : flRound (((5636705293616912:ℤ):ℚ) * 2 ^ ((3:ℤ) - 52) +
      ((6178037968826846:ℤ):ℚ) * 2 ^ ((2:ℤ) - 52)) =
      ((8725724278030335:ℤ):ℚ) * 2 ^ ((3:ℤ) - 52) :=
    flRound_of_binade _ 3 8725724278030335
      (by norm_num) (by norm_num) (by norm_num) (by norm_num [roundTiesToEven])
  unfold calculateLuminance
  rw [hz, flRound_zero, hp2, hp3, zero_add, hs1, hs2]
  unfold jsRound
  norm_num

/-- C1: for bytes `r, g, b ≤ 255`, `calculateLuminance` is `Math.round`
applied to the IEEE-double evaluation of the Rec. 709 weighted sum
`0.2126 * r + 0.7152 * g + 0.0722 * b` — each coefficient being the
binary64 value nearest its decimal literal, and each product and
left-to-right sum rounded to the nearest double — and the result lies in
`[0, 255]`, is monotone in each channel with the other two fixed, and
maps black to `0` and white to `255`. -/
theorem calculateLuminance_spec (r g b r2 g2 b2 : ℕ)
    (hr : r ≤ 255) (hg : g ≤ 255) (hb : b ≤ 255)
    (hr2 : r ≤ r2) (hg2 : g ≤ g2) (hb2 : b ≤ b2) :
    calculateLuminance r g b =
      jsRound (flRound (flRound (flRound (c0_2126 * r) + flRound (c0_7152 * g)) +
        flRound (c0_0722 * b)))
    ∧ flRound (2126 / 10000) = c0_2126
    ∧ flRound (7152 / 10000) = c0_7152
    ∧ flRound (722 / 10000) = c0_0722
    ∧ 0 ≤ calculateLuminance r g b
    ∧ calculateLuminance r g b ≤ 255
    ∧ calculateLuminance r g b ≤ calculateLuminance r2 g b
    ∧ calculateLuminance r g b ≤ calculateLuminance r g2 b
    ∧ calculateLuminance r g b ≤ calculateLuminance r g b2
    ∧ calculateLuminance 0 0 0 = 0
    ∧ calculateLuminance 255 255 255 = 255 := by
  refine ⟨rfl, flRound_c2126, flRound_c7152, flRound_c0722, ?_, ?_,
    calculateLuminance_mono hr2 le_rfl le_rfl,
    calculateLuminance_mono le_rfl hg2 le_rfl,
    calculateLuminance_mono le_rfl le_rfl hb2,
    calculateLuminance_black, calculateLuminance_white⟩
  · calc (0:ℤ) = calculateLuminance 0 0 0 := calculateLuminance_black.symm
      _ ≤ calculateLuminance r g b :=
        calculateLuminance_mono (Nat.zero_le r) (Nat.zero_le g) (Nat.zero_le b)
  · calc calculateLuminance r g b ≤ calculateLuminance 255 255 255 :=
        calculateLuminance_mono hr hg hb
      _ = 255 := calculateLuminance_white

/-- Witness for C1 at the concrete input `(10, 20, 30)`. -/
theorem calculateLuminance_spec_witness :
    0 ≤ calculateLuminance 10 20 30
    ∧ calculateLuminance 10 20 30 ≤ 255
    ∧ calculateLuminance 10 20 30 ≤ calculateLuminance 11 20 30 := by
  have h := calculateLuminance_spec 10 20 30 11 20 30
    (by decide) (by decide) (by decide) (by decide) (by decide) (by decide)
  exact ⟨h.2.2.2.2.1, h.2.2.2.2.2.1, h.2.2.2.2.2.2.1⟩

/-- Counterexample for C1 as originally stated: at `(r, g, b) = (0, 14, 76)`
the double evaluation of the weighted sum is `15.499999999999998`, just
below the exact rational value `15.5`, so the code returns `15` while
`Math.round` of the exact rational sum is `16`. -/
theorem calculateLuminance_tie_counterexample :
    calculateLuminance 0 14 76 = 15
    ∧ ⌊(2126 * 0 + 7152 * 14 + 722 * 76 : ℚ) / 10000 + 1 / 2⌋ = 16 :=
  ⟨calculateLuminance_tie, by norm_num⟩

/-- C6: `getPixelLuminance` returns `0` on every out-of-bounds coordinate
pair; it is a total function and out-of-bounds coordinates never reach the
buffer-indexing branch. -/
theorem getPixelLuminance_oob (data : ℕ → ℕ) (width height : ℕ) (x y : ℤ)
    (h : x < 0 ∨ (width : ℤ) ≤ x ∨ y < 0 ∨ (height : ℤ) ≤ y) :
    getPixelLuminance data width height x y = 0 := by
  unfold getPixelLuminance
  rw [if_pos h]

/-- Witness for C6: sampling `x = -1` on a non-black 3×3 buffer yields `0`. -/
theorem getPixelLuminance_oob_witness :
    getPixelLuminance (fun _ => 200) 3 3 (-1) 1 = 0 :=
  getPixelLuminance_oob (fun _ => 200) 3 3 (-1) 1 (Or.inl (by decide))

/-- C10: with an empty ramp `charForLuminance` returns a space and with a
one-character ramp it returns that character, for every luminance and both
values of `invert`; no ramp index is computed in these branches. -/
theorem charForLuminance_degenerate (luminance : ℤ) (invert : Bool) (c : Char) :
    charForLuminance luminance [] invert = ' '
    ∧ charForLuminance luminance [c] invert = c := by
  constructor <;> simp [charForLuminance]

lemma rampIndex_nonneg {luminance : ℤ} {len : ℕ} (hlen : 2 ≤ len) (invert : Bool) :
    0 ≤ rampIndex luminance len invert ∧ rampIndex luminance len invert ≤ (len : ℤ) - 1 := by
  unfold rampIndex
  have hcl : (0 : ℤ) ≤ max 0 (min 255 luminance) := le_max_left _ _
  have hfl : 0 ≤ ⌊((max 0 (min 255 luminance) : ℤ) : ℚ) / 255 * (len : ℚ)⌋ := by
    apply Int.floor_nonneg.2
    have : (0 : ℚ) ≤ ((max 0 (min 255 luminance) : ℤ) : ℚ) := by exact_mod_cast hcl
    positivity
  have hlen' : (1 : ℤ) ≤ (len : ℤ) := by exact_mod_cast Nat.one_le_of_lt hlen
  cases invert <;> simp only [if_true, if_false, Bool.false_eq_true, ite_false, ite_true]
  · exact ⟨le_min hfl (by omega), min_le_right _ _⟩
  · constructor
    · have : min ⌊((max 0 (min 255 luminance) : ℤ) : ℚ) / 255 * (len : ℚ)⌋ ((len : ℤ) - 1) ≤ (len : ℤ) - 1 :=
        min_le_right _ _
      omega
    · have : (0 : ℤ) ≤ min ⌊((max 0 (min 255 luminance) : ℤ) : ℚ) / 255 * (len : ℚ)⌋ ((len : ℤ) - 1) :=
        le_min hfl (by omega)
      omega

lemma rampIndex_mono_false {lum lum' : ℤ} {len : ℕ} (h : lum ≤ lum') :
    rampIndex lum len false ≤ rampIndex lum' len false := by
  unfold rampIndex
  simp only [Bool.false_eq_true, ite_false]
  apply min_le_min ?_ le_rfl
  apply Int.floor_le_floor
  have hcl : (max 0 (min 255 lum) : ℤ) ≤ max 0 (min 255 lum') :=
    max_le_max le_rfl (min_le_min le_rfl h)
  have hcl' : ((max 0 (min 255 lum) : ℤ) : ℚ) ≤ ((max 0 (min 255 lum') : ℤ) : ℚ) := by
    exact_mod_cast hcl
  gcongr

lemma rampIndex_zero_false {len : ℕ} (hlen : 2 ≤ len) : rampIndex 0 len false = 0 := by
  unfold rampIndex
  simp only [Bool.false_eq_true, ite_false]
  have h1 : (max 0 (min 255 (0:ℤ))) = 0 := by decide
  rw [h1]
  norm_num
  omega

lemma rampIndex_255_false {len : ℕ} (hlen : 2 ≤ len) :
    rampIndex 255 len false = (len : ℤ) - 1 := by
  unfold rampIndex
  simp only [Bool.false_eq_true, ite_false]
  have h1 : (max 0 (min 255 (255:ℤ))) = 255 := by decide
  rw [h1]
  have h2 : ((255 : ℤ) : ℚ) / 255 * (len : ℚ) = (len : ℚ) := by norm_num
  rw [h2, Int.floor_natCast]
  omega

lemma rampIndex_true_eq (lum : ℤ) (len : ℕ) :
    rampIndex lum len true = (len : ℤ) - 1 - rampIndex lum len false := by
  unfold rampIndex
  simp

lemma charForLuminance_eq_getD {chars : List Char} (lum : ℤ) (invert : Bool)
    (hlen : 2 ≤ chars.length) :
    charForLuminance lum chars invert =
      chars.getD (rampIndex lum chars.length invert).toNat ' ' := by
  unfold charForLuminance
  rw [if_neg (by omega), if_neg (by omega)]

lemma whiteImage4_scenario :
    mapLuminance whiteImage4 simpleCharacters false =
      List.replicate 4 (List.replicate 4 '@') := by
  have hchar : charForLuminance 255 simpleCharacters false = '@' := by
    rw [charForLuminance_eq_getD 255 false (by decide),
      rampIndex_255_false (by decide)]
    decide
  simp only [mapLuminance, whiteImage4]
  norm_num [calculateLuminance_white, hchar]

/-- C4: for a ramp of length at least 2, the luminance-to-index map of
`charForLuminance` is monotone non-decreasing (non-increasing under
`invert`), luminance `0` maps to the first ramp character and `255` to the
last (reversed under `invert`), and an all-white 4×4 buffer with the
`simple` ramp maps every cell to the at-sign character. -/
theorem charForLuminance_monotone_spec (lum lum' : ℤ) (chars : List Char)
    (hlen : 2 ≤ chars.length) (h : lum ≤ lum') :
    rampIndex lum chars.length false ≤ rampIndex lum' chars.length false
    ∧ rampIndex lum' chars.length true ≤ rampIndex lum chars.length true
    ∧ charForLuminance 0 chars false = chars.getD 0 ' '
    ∧ charForLuminance 255 chars false = chars.getD (chars.length - 1) ' '
    ∧ charForLuminance 0 chars true = chars.getD (chars.length - 1) ' '
    ∧ charForLuminance 255 chars true = chars.getD 0 ' '
    ∧ mapLuminance whiteImage4 simpleCharacters false =
        List.replicate 4 (List.replicate 4 '@') := by
  refine ⟨rampIndex_mono_false h, ?_, ?_, ?_, ?_, ?_, whiteImage4_scenario⟩
  · rw [rampIndex_true_eq, rampIndex_true_eq]
    have := @rampIndex_mono_false lum lum' chars.length h
    omega
  · rw [charForLuminance_eq_getD 0 false hlen, rampIndex_zero_false hlen]
    rfl
  · rw [charForLuminance_eq_getD 255 false hlen, rampIndex_255_false hlen]
    congr 1
    omega
  · rw [charForLuminance_eq_getD 0 true hlen, rampIndex_true_eq,
      rampIndex_zero_false hlen]
    congr 1
    omega
  · rw [charForLuminance_eq_getD 255 true hlen, rampIndex_true_eq,
      rampIndex_255_false hlen]
    congr 1
    omega

/-- Witness for C4 at luminances `5 ≤ 9` over the `simple` ramp. -/
theorem charForLuminance_monotone_spec_witness :
    rampIndex 5 simpleCharacters.length false ≤ rampIndex 9 simpleCharacters.length false
    ∧ charForLuminance 0 simpleCharacters false = simpleCharacters.getD 0 ' ' := by
  have h := charForLuminance_monotone_spec 5 9 simpleCharacters (by decide) (by decide)
  exact ⟨h.1, h.2.2.1⟩

/-- Table `BRAILLE_DOT_MAP`: bit weight of the braille dot at row `dy`, column `dx`. -/
def BRAILLE_DOT_MAP : List (List ℕ) := [[1, 8], [2, 16], [4, 32], [64, 128]]

/-- The luminance sampled by `encodeBraille` for cell `(cx, cy)` at sub-pixel
offset `(dx, dy)`. -/
def brailleSampleLum (img : ImageData) (cx cy dx dy : ℕ) : ℤ :=
  getPixelLuminance img.data img.width img.height
    ((cx * 2 + dx : ℕ) : ℤ) ((cy * 4 + dy : ℕ) : ℤ)

/-- The 8-bit dot pattern accumulated by `encodeBraille` for one cell:
`pattern |= BRAILLE_DOT_MAP[dy][dx]` whenever the sampled luminance exceeds
the threshold. -/
def brailleCellPattern (img : ImageData) (threshold : ℕ) (cx cy : ℕ) : ℕ :=
  (List.range 4).foldl
    (fun pattern dy =>
      (List.range 2).foldl
        (fun pattern dx =>
          if (threshold : ℤ) < brailleSampleLum img cx cy dx dy then
            pattern ||| (BRAILLE_DOT_MAP.getD dy []).getD dx 0
          else pattern)
        pattern)
    0

/-- Function `encodeBraille(imageData, threshold)`: one character per 2×4 pixel block,
code point `0x2800` plus the dot pattern. -/
def encodeBraille (img : ImageData) (threshold : ℕ) : List (List Char) :=
  (List.range ((img.height + 3) / 4)).map fun charY =>
    (List.range ((img.width + 1) / 2)).map fun charX =>
      Char.ofNat (0x2800 + brailleCellPattern img threshold charX charY)

/-- The 16 quadrant glyphs of `encodeBlocks`, indexed by binary pattern. -/
def QUADRANT_CHARS : List Char :=
  [' ', '▘', '▝', '▀', '▖', '▌', '▞', '▛', '▗', '▚', '▐', '▜', '▄', '▙', '▟', '█']

/-- The sample offsets and bit weights of `encodeBlocks`:
top-left=1, top-right=2, bottom-left=4, bottom-right=8. -/
def quadrantPositions : List (ℕ × ℕ × ℕ) := [(0, 0, 1), (1, 0, 2), (0, 1, 4), (1, 1, 8)]

/-- The luminance sampled by `encodeBlocks` for cell `(cx, cy)` at sub-pixel
offset `(dx, dy)`. -/
def blockSampleLum (img : ImageData) (cx cy dx dy : ℕ) : ℤ :=
  getPixelLuminance img.data img.width img.height
    ((cx * 2 + dx : ℕ) : ℤ) ((cy * 2 + dy : ℕ) : ℤ)

/-- The 4-bit quadrant pattern accumulated by `encodeBlocks` for one cell. -/
def blocksCellPattern (img : ImageData) (threshold : ℕ) (cx cy : ℕ) : ℕ :=
  quadrantPositions.foldl
    (fun pattern pos =>
      if (threshold : ℤ) < blockSampleLum img cx cy pos.1 pos.2.1 then
        pattern ||| pos.2.2
      else pattern)
    0

/-- Function `encodeBlocks(imageData, threshold)`: one quadrant glyph per 2×2 pixel
block, selected from the fixed 16-glyph table by the bit pattern. -/
def encodeBlocks (img : ImageData) (threshold : ℕ) : List (List Char) :=
  (List.range ((img.height + 1) / 2)).map fun charY =>
    (List.range ((img.width + 1) / 2)).map fun charX =>
      QUADRANT_CHARS.getD (blocksCellPattern img threshold charX charY) ' '

lemma getD_map_range {α : Type} (n : ℕ) (f : ℕ → α) (i : ℕ) (d : α) (h : i < n) :
    ((List.range n).map f).getD i d = f i := by
  rw [List.getD_eq_getElem?_getD, List.getElem?_map, List.getElem?_range h]
  rfl

lemma encodeBraille_cell (img : ImageData) (t cx cy : ℕ)
    (hcx : cx < (img.width + 1) / 2) (hcy : cy < (img.height + 3) / 4) :
    ((encodeBraille img t).getD cy []).getD cx ' ' =
      Char.ofNat (0x2800 + brailleCellPattern img t cx cy) := by
  unfold encodeBraille
  rw [getD_map_range _ _ _ _ hcy, getD_map_range _ _ _ _ hcx]

lemma encodeBlocks_cell (img : ImageData) (t cx cy : ℕ)
    (hcx : cx < (img.width + 1) / 2) (hcy : cy < (img.height + 1) / 2) :
    ((encodeBlocks img t).getD cy []).getD cx ' ' =
      QUADRANT_CHARS.getD (blocksCellPattern img t cx cy) ' ' := by
  unfold encodeBlocks
  rw [getD_map_range _ _ _ _ hcy, getD_map_range _ _ _ _ hcx]

lemma brailleCellPattern_empty {img : ImageData} {t cx cy : ℕ}
    (h : ∀ dx dy, dx < 2 → dy < 4 → brailleSampleLum img cx cy dx dy ≤ t) :
    brailleCellPattern img t cx cy = 0 := by
  have h00 := not_lt.2 (h 0 0 (by norm_num) (by norm_num))
  have h10 := not_lt.2 (h 1 0 (by norm_num) (by norm_num))
  have h01 := not_lt.2 (h 0 1 (by norm_num) (by norm_num))
  have h11 := not_lt.2 (h 1 1 (by norm_num) (by norm_num))
  have h02 := not_lt.2 (h 0 2 (by norm_num) (by norm_num))
  have h12 := not_lt.2 (h 1 2 (by norm_num) (by norm_num))
  have h03 := not_lt.2 (h 0 3 (by norm_num) (by norm_num))
  have h13 := not_lt.2 (h 1 3 (by norm_num) (by norm_num))
  have hr4 : List.range 4 = [0, 1, 2, 3] := rfl
  have hr2 : List.range 2 = [0, 1] := rfl
  simp only [brailleCellPattern, hr4, hr2, List.foldl_cons, List.foldl_nil,
    h00, h10, h01, h11, h02, h12, h03, h13, if_false, ite_false]

lemma brailleCellPattern_full {img : ImageData} {t cx cy : ℕ}
    (h : ∀ dx dy, dx < 2 → dy < 4 → (t : ℤ) < brailleSampleLum img cx cy dx dy) :
    brailleCellPattern img t cx cy = 255 := by
  have h00 := h 0 0 (by norm_num) (by norm_num)
  have h10 := h 1 0 (by norm_num) (by norm_num)
  have h01 := h 0 1 (by norm_num) (by norm_num)
  have h11 := h 1 1 (by norm_num) (by norm_num)
  have h02 := h 0 2 (by norm_num) (by norm_num)
  have h12 := h 1 2 (by norm_num) (by norm_num)
  have h03 := h 0 3 (by norm_num) (by norm_num)
  have h13 := h 1 3 (by norm_num) (by norm_num)
  have hr4 : List.range 4 = [0, 1, 2, 3] := rfl
  have hr2 : List.range 2 = [0, 1] := rfl
  simp only [brailleCellPattern, hr4, hr2, List.foldl_cons, List.foldl_nil,
    h00, h10, h01, h11, h02, h12, h03, h13, if_true, ite_true]
  decide

lemma brailleCellPattern_congr {img img2 : ImageData} {t t2 cx cy : ℕ}
    (h : ∀ dx dy, dx < 2 → dy < 4 →
      ((t : ℤ) < brailleSampleLum img cx cy dx dy ↔
        (t2 : ℤ) < brailleSampleLum img2 cx cy dx dy)) :
    brailleCellPattern img t cx cy = brailleCellPattern img2 t2 cx cy := by
  have h00 := h 0 0 (by norm_num) (by norm_num)
  have h10 := h 1 0 (by norm_num) (by norm_num)
  have h01 := h 0 1 (by norm_num) (by norm_num)
  have h11 := h 1 1 (by norm_num) (by norm_num)
  have h02 := h 0 2 (by norm_num) (by norm_num)
  have h12 := h 1 2 (by norm_num) (by norm_num)
  have h03 := h 0 3 (by norm_num) (by norm_num)
  have h13 := h 1 3 (by norm_num) (by norm_num)
  have hr4 : List.range 4 = [0, 1, 2, 3] := rfl
  have hr2 : List.range 2 = [0, 1] := rfl
  simp only [brailleCellPattern, hr4, hr2, List.foldl_cons, List.foldl_nil,
    h00, h10, h01, h11, h02, h12, h03, h13]

lemma blocksCellPattern_empty {img : ImageData} {t cx cy : ℕ}
    (h : ∀ dx dy, dx < 2 → dy < 2 → blockSampleLum img cx cy dx dy ≤ t) :
    blocksCellPattern img t cx cy = 0 := by
  have h00 := not_lt.2 (h 0 0 (by norm_num) (by norm_num))
  have h10 := not_lt.2 (h 1 0 (by norm_num) (by norm_num))
  have h01 := not_lt.2 (h 0 1 (by norm_num) (by norm_num))
  have h11 := not_lt.2 (h 1 1 (by norm_num) (by norm_num))
  simp only [blocksCellPattern, quadrantPositions, List.foldl_cons, List.foldl_nil,
    h00, h10, h01, h11, if_false, ite_false]

lemma blocksCellPattern_full {img : ImageData} {t cx cy : ℕ}
    (h : ∀ dx dy, dx < 2 → dy < 2 → (t : ℤ) < blockSampleLum img cx cy dx dy) :
    blocksCellPattern img t cx cy = 15 := by
  have h00 := h 0 0 (by norm_num) (by norm_num)
  have h10 := h 1 0 (by norm_num) (by norm_num)
  have h01 := h 0 1 (by norm_num) (by norm_num)
  have h11 := h 1 1 (by norm_num) (by norm_num)
  simp only [blocksCellPattern, quadrantPositions, List.foldl_cons, List.foldl_nil,
    h00, h10, h01, h11, if_true, ite_true]
  decide

lemma blocksCellPattern_congr {img img2 : ImageData} {t t2 cx cy : ℕ}
    (h : ∀ dx dy, dx < 2 → dy < 2 →
      ((t : ℤ) < blockSampleLum img cx cy dx dy ↔
        (t2 : ℤ) < blockSampleLum img2 cx cy dx dy)) :
    blocksCellPattern img t cx cy = blocksCellPattern img2 t2 cx cy := by
  have h00 := h 0 0 (by norm_num) (by norm_num)
  have h10 := h 1 0 (by norm_num) (by norm_num)
  have h01 := h 0 1 (by norm_num) (by norm_num)
  have h11 := h 1 1 (by norm_num) (by norm_num)
  simp only [blocksCellPattern, quadrantPositions, List.foldl_cons, List.foldl_nil,
    h00, h10, h01, h11]

lemma getPixelLuminance_zero (w h : ℕ) (x y : ℤ) :
    getPixelLuminance (fun _ => 0) w h x y = 0 := by
  unfold getPixelLuminance
  split
  · rfl
  · exact calculateLuminance_black

/-- A 2×4 all-black RGBA buffer. -/
def blackImage : ImageData := ⟨2, 4, fun _ => 0⟩

/-- C5: in `encodeBlocks` and `encodeBraille`, an all-at-or-below-threshold
block encodes to the empty glyph (space, resp. U+2800), an
all-above-threshold block encodes to the full glyph (U+2588, resp. U+28FF),
and the bit assignment is fixed: cells whose sub-pixel threshold truth
tables agree produce equal patterns and equal output characters. -/
theorem encode_blocks_braille_spec (img img2 : ImageData) (t t2 cx cy : ℕ) :
    ((∀ dx dy, dx < 2 → dy < 4 → brailleSampleLum img cx cy dx dy ≤ t) →
      cx < (img.width + 1) / 2 → cy < (img.height + 3) / 4 →
      ((encodeBraille img t).getD cy []).getD cx ' ' = Char.ofNat 0x2800)
    ∧ ((∀ dx dy, dx < 2 → dy < 4 → (t : ℤ) < brailleSampleLum img cx cy dx dy) →
      cx < (img.width + 1) / 2 → cy < (img.height + 3) / 4 →
      ((encodeBraille img t).getD cy []).getD cx ' ' = Char.ofNat 0x28FF)
    ∧ ((∀ dx dy, dx < 2 → dy < 2 → blockSampleLum img cx cy dx dy ≤ t) →
      cx < (img.width + 1) / 2 → cy < (img.height + 1) / 2 →
      ((encodeBlocks img t).getD cy []).getD cx ' ' = ' ')
    ∧ ((∀ dx dy, dx < 2 → dy < 2 → (t : ℤ) < blockSampleLum img cx cy dx dy) →
      cx < (img.width + 1) / 2 → cy < (img.height + 1) / 2 →
      ((encodeBlocks img t).getD cy []).getD cx ' ' = '█')
    ∧ ((∀ dx dy, dx < 2 → dy < 4 →
        ((t : ℤ) < brailleSampleLum img cx cy dx dy ↔
          (t2 : ℤ) < brailleSampleLum img2 cx cy dx dy)) →
      brailleCellPattern img t cx cy = brailleCellPattern img2 t2 cx cy
      ∧ (cx < (img.width + 1) / 2 → cy < (img.height + 3) / 4 →
         cx < (img2.width + 1) / 2 → cy < (img2.height + 3) / 4 →
         ((encodeBraille img t).getD cy []).getD cx ' ' =
           ((encodeBraille img2 t2).getD cy []).getD cx ' '))
    ∧ ((∀ dx dy, dx < 2 → dy < 2 →
        ((t : ℤ) < blockSampleLum img cx cy dx dy ↔
          (t2 : ℤ) < blockSampleLum img2 cx cy dx dy)) →
      blocksCellPattern img t cx cy = blocksCellPattern img2 t2 cx cy
      ∧ (cx < (img.width + 1) / 2 → cy < (img.height + 1) / 2 →
         cx < (img2.width + 1) / 2 → cy < (img2.height + 1) / 2 →
         ((encodeBlocks img t).getD cy []).getD cx ' ' =
           ((encodeBlocks img2 t2).getD cy []).getD cx ' ')) := by
  refine ⟨?_, ?_, ?_, ?_, ?_, ?_⟩
  · intro h hcx hcy
    rw [encodeBraille_cell img t cx cy hcx hcy, brailleCellPattern_empty h]
  · intro h hcx hcy
    rw [encodeBraille_cell img t cx cy hcx hcy, brailleCellPattern_full h]
  · intro h hcx hcy
    rw [encodeBlocks_cell img t cx cy hcx hcy, blocksCellPattern_empty h]
    rfl
  · intro h hcx hcy
    rw [encodeBlocks_cell img t cx cy hcx hcy, blocksCellPattern_full h]
    rfl
  · intro h
    refine ⟨brailleCellPattern_congr h, ?_⟩
    intro hcx hcy hcx2 hcy2
    rw [encodeBraille_cell img t cx cy hcx hcy,
      encodeBraille_cell img2 t2 cx cy hcx2 hcy2, brailleCellPattern_congr h]
  · intro h
    refine ⟨blocksCellPattern_congr h, ?_⟩
    intro hcx hcy hcx2 hcy2
    rw [encodeBlocks_cell img t cx cy hcx hcy,
      encodeBlocks_cell img2 t2 cx cy hcx2 hcy2, blocksCellPattern_congr h]

/-- Witness for C5: the all-black 2×4 buffer encodes cell `(0,0)` to the
blank braille glyph and the space quadrant glyph. -/
theorem encode_blocks_braille_spec_witness :
    ((encodeBraille blackImage 128).getD 0 []).getD 0 ' ' = Char.ofNat 0x2800
    ∧ ((encodeBlocks blackImage 128).getD 0 []).getD 0 ' ' = ' ' := by
  have hb : ∀ dx dy : ℕ, dx < 2 → dy < 4 → brailleSampleLum blackImage 0 0 dx dy ≤ 128 := by
    intro dx dy _ _
    unfold brailleSampleLum
    show getPixelLuminance (fun _ => 0) 2 4 _ _ ≤ 128
    rw [getPixelLuminance_zero]
    norm_num
  have hq : ∀ dx dy : ℕ, dx < 2 → dy < 2 → blockSampleLum blackImage 0 0 dx dy ≤ 128 := by
    intro dx dy _ _
    unfold blockSampleLum
    show getPixelLuminance (fun _ => 0) 2 4 _ _ ≤ 128
    rw [getPixelLuminance_zero]
    norm_num
  have h := encode_blocks_braille_spec blackImage blackImage 128 128 0 0
  exact ⟨h.1 hb (by decide) (by decide), h.2.2.1 hq (by decide) (by decide)⟩

/-- A `Uint8ClampedArray` store of `Math.max(0, Math.min(255, q))`:
clamp to `[0, 255]`, then round ties-to-even. -/
def clampByte (q : ℚ) : ℕ := (roundTiesToEven (max 0 (min 255 q))).toNat

/-- The `distribute(dx, dy, factor)` closure of the error-diffusion
dithers: when `(x+dx, y+dy)` is inside the buffer, add the per-channel
error shares `aR, aG, aB` to its three colour channels, clamping each
written value to a byte. -/
def distributeError (w h x y : ℕ) (aR aG aB : ℚ) (dx dy : ℤ) (d : ℕ → ℕ) : ℕ → ℕ :=
  if 0 ≤ (x : ℤ) + dx ∧ (x : ℤ) + dx < (w : ℤ) ∧ 0 ≤ (y : ℤ) + dy ∧ (y : ℤ) + dy < (h : ℤ) then
    let nidx := (((y : ℤ) + dy).toNat * w + ((x : ℤ) + dx).toNat) * 4
    let d1 := Function.update d nidx (clampByte ((d nidx : ℚ) + aR))
    let d2 := Function.update d1 (nidx + 1) (clampByte ((d1 (nidx + 1) : ℚ) + aG))
    Function.update d2 (nidx + 2) (clampByte ((d2 (nidx + 2) : ℚ) + aB))
  else d

/-- The black/white quantization used by Floyd-Steinberg and Atkinson:
`lum > 128 ? 255 : 0` at pixel `(x, y)` of state `d`. -/
def quantizeBW (d : ℕ → ℕ) (w x y : ℕ) : ℕ :=
  if 128 < calculateLuminance (d ((y * w + x) * 4)) (d ((y * w + x) * 4 + 1))
      (d ((y * w + x) * 4 + 2)) then 255 else 0

/-- One pixel step of `floydSteinbergDither`: quantize pixel `(x, y)` to
black or white, then distribute `7/16, 3/16, 5/16, 1/16` of the
per-channel quantization error to the four forward neighbours. -/
def fsStep (w h : ℕ) (d : ℕ → ℕ) (x y : ℕ) : ℕ → ℕ :=
  let idx := (y * w + x) * 4
  let oldR := d idx
  let oldG := d (idx + 1)
  let oldB := d (idx + 2)
  let newVal := quantizeBW d w x y
  let d2 := Function.update (Function.update (Function.update d idx newVal)
    (idx + 1) newVal) (idx + 2) newVal
  let errR : ℚ := (oldR : ℚ) - (newVal : ℚ)
  let errG : ℚ := (oldG : ℚ) - (newVal : ℚ)
  let errB : ℚ := (oldB : ℚ) - (newVal : ℚ)
  distributeError w h x y (errR * (1 / 16)) (errG * (1 / 16)) (errB * (1 / 16)) 1 1
    (distributeError w h x y (errR * (5 / 16)) (errG * (5 / 16)) (errB * (5 / 16)) 0 1
      (distributeError w h x y (errR * (3 / 16)) (errG * (3 / 16)) (errB * (3 / 16)) (-1) 1
        (distributeError w h x y (errR * (7 / 16)) (errG * (7 / 16)) (errB * (7 / 16)) 1 0 d2)))

/-- One pixel step of `atkinsonDither`: quantize pixel `(x, y)` to black or
white, then distribute one eighth of the average-channel error to six
forward neighbours. -/
def atkStep (w h : ℕ) (d : ℕ → ℕ) (x y : ℕ) : ℕ → ℕ :=
  let idx := (y * w + x) * 4
  let oldR := d idx
  let oldG := d (idx + 1)
  let oldB := d (idx + 2)
  let newVal := quantizeBW d w x y
  let d2 := Function.update (Function.update (Function.update d idx newVal)
    (idx + 1) newVal) (idx + 2) newVal
  let errPart : ℚ := (((oldR : ℚ) + (oldG : ℚ) + (oldB : ℚ)) / 3 - (newVal : ℚ)) / 8
  distributeError w h x y errPart errPart errPart 0 2
    (distributeError w h x y errPart errPart errPart 1 1
      (distributeError w h x y errPart errPart errPart 0 1
        (distributeError w h x y errPart errPart errPart (-1) 1
          (distributeError w h x y errPart errPart errPart 2 0
            (distributeError w h x y errPart errPart errPart 1 0 d2)))))

/-- The fixed 4×4 Bayer matrix. -/
def bayer4 : List (List ℕ) :=
  [[0, 8, 2, 10], [12, 4, 14, 6], [3, 11, 1, 9], [15, 7, 13, 5]]

/-- The per-pixel quantization of `bayerDither`: compare the luminance with
the matrix threshold `(bayer4[y % 4][x % 4] / 16) * 255`. -/
def bayerQuant (d : ℕ → ℕ) (w x y : ℕ) : ℕ :=
  if ((bayer4.getD (y % 4) []).getD (x % 4) 0 : ℚ) / 16 * 255 <
      (calculateLuminance (d ((y * w + x) * 4)) (d ((y * w + x) * 4 + 1))
        (d ((y * w + x) * 4 + 2)) : ℚ) then 255 else 0

/-- One pixel step of `bayerDither`: threshold pixel `(x, y)` against the
Bayer matrix; no error is diffused. -/
def bayerStep (w : ℕ) (d : ℕ → ℕ) (x y : ℕ) : ℕ → ℕ :=
  let idx := (y * w + x) * 4
  let newVal := bayerQuant d w x y
  Function.update (Function.update (Function.update d idx newVal)
    (idx + 1) newVal) (idx + 2) newVal

/-- The inner `for (x = 0; x < n; x++)` loop of the dithers at row `y`. -/
def rowLoopN (step : (ℕ → ℕ) → ℕ → ℕ → (ℕ → ℕ)) (y n : ℕ) (d : ℕ → ℕ) : ℕ → ℕ :=
  (List.range n).foldl (fun d x => step d x y) d

/-- The outer `for (y = 0; y < m; y++)` loop of the dithers over a width-`w`
buffer. -/
def gridLoopN (step : (ℕ → ℕ) → ℕ → ℕ → (ℕ → ℕ)) (w m : ℕ) (d : ℕ → ℕ) : ℕ → ℕ :=
  (List.range m).foldl (fun d y => rowLoopN step y w d) d

/-- Function `floydSteinbergDither(imageData)`: error diffusion over a fresh copy of
the data, row-major. -/
def floydSteinbergDither (img : ImageData) : ImageData :=
  ⟨img.width, img.height,
    gridLoopN (fsStep img.width img.height) img.width img.height img.data⟩

/-- Function `atkinsonDither(imageData)`. -/
def atkinsonDither (img : ImageData) : ImageData :=
  ⟨img.width, img.height,
    gridLoopN (atkStep img.width img.height) img.width img.height img.data⟩

/-- Function `bayerDither(imageData)`. -/
def bayerDither (img : ImageData) : ImageData :=
  ⟨img.width, img.height,
    gridLoopN (bayerStep img.width) img.width img.height img.data⟩

lemma clampByte_le_255 (q : ℚ) : clampByte q ≤ 255 := by
  unfold clampByte roundTiesToEven
  set m : ℚ := max 0 (min 255 q) with hm
  have hm255 : m ≤ 255 := by
    rw [hm]
    exact max_le (by norm_num) (min_le_left _ _)
  have hm0 : 0 ≤ m := le_max_left _ _
  have hfl : (0 : ℤ) ≤ ⌊m⌋ := Int.floor_nonneg.2 hm0
  have hfu : ⌊m⌋ ≤ 255 := by
    have : (⌊m⌋ : ℚ) ≤ 255 := le_trans (Int.floor_le m) hm255
    exact_mod_cast this
  by_cases h1 : m - ⌊m⌋ < 1 / 2
  · rw [if_pos h1]
    omega
  · rw [if_neg h1]
    have hsm : ⌊m⌋ ≤ 254 := by
      have hfrac : (⌊m⌋ : ℚ) + 1 / 2 ≤ m := by
        push_neg at h1
        linarith
      have : (⌊m⌋ : ℚ) < 255 := by linarith
      have : ⌊m⌋ < 255 := by exact_mod_cast this
      omega
    by_cases h2 : 1 / 2 < m - ⌊m⌋
    · rw [if_pos h2]
      omega
    · rw [if_neg h2]
      by_cases h3 : Even ⌊m⌋
      · rw [if_pos h3]
        omega
      · rw [if_neg h3]
        omega

lemma distributeError_target_gt {w h x y : ℕ} {dx dy : ℤ} (hx : x < w)
    (hdir : (dy = 0 ∧ 0 < dx) ∨ 0 < dy)
    (hg : 0 ≤ (x : ℤ) + dx ∧ (x : ℤ) + dx < (w : ℤ) ∧ 0 ≤ (y : ℤ) + dy ∧ (y : ℤ) + dy < (h : ℤ)) :
    y * w + x < ((y : ℤ) + dy).toNat * w + ((x : ℤ) + dx).toNat := by
  obtain ⟨h1, h2, h3, h4⟩ := hg
  rcases hdir with ⟨hdy, hdx⟩ | hdy
  · have hyy : ((y : ℤ) + dy).toNat = y := by omega
    rw [hyy]
    have hxx : x < ((x : ℤ) + dx).toNat := by omega
    omega
  · have hyy : y + 1 ≤ ((y : ℤ) + dy).toNat := by omega
    calc y * w + x < y * w + w := by omega
      _ = (y + 1) * w := by ring
      _ ≤ ((y : ℤ) + dy).toNat * w := Nat.mul_le_mul_right w hyy
      _ ≤ _ := Nat.le_add_right _ _

lemma distributeError_preserve_le {w h x y : ℕ} {aR aG aB : ℚ} {dx dy : ℤ} {d : ℕ → ℕ}
    (hx : x < w) (hdir : (dy = 0 ∧ 0 < dx) ∨ 0 < dy) (i : ℕ)
    (hi : i ≤ (y * w + x) * 4 + 3) :
    distributeError w h x y aR aG aB dx dy d i = d i := by
  simp only [distributeError]
  by_cases hg : 0 ≤ (x : ℤ) + dx ∧ (x : ℤ) + dx < (w : ℤ) ∧ 0 ≤ (y : ℤ) + dy ∧ (y : ℤ) + dy < (h : ℤ)
  · rw [if_pos hg]
    have hq := distributeError_target_gt hx hdir hg
    set q := ((y : ℤ) + dy).toNat * w + ((x : ℤ) + dx).toNat with hqdef
    rw [Function.update_noteq (by omega), Function.update_noteq (by omega),
      Function.update_noteq (by omega)]
  · rw [if_neg hg]

lemma distributeError_alpha {w h x y : ℕ} {aR aG aB : ℚ} {dx dy : ℤ} {d : ℕ → ℕ}
    (i : ℕ) (hi : i % 4 = 3) :
    distributeError w h x y aR aG aB dx dy d i = d i := by
  simp only [distributeError]
  by_cases hg : 0 ≤ (x : ℤ) + dx ∧ (x : ℤ) + dx < (w : ℤ) ∧ 0 ≤ (y : ℤ) + dy ∧ (y : ℤ) + dy < (h : ℤ)
  · rw [if_pos hg]
    set q := ((y : ℤ) + dy).toNat * w + ((x : ℤ) + dx).toNat with hqdef
    rw [Function.update_noteq (by omega), Function.update_noteq (by omega),
      Function.update_noteq (by omega)]
  · rw [if_neg hg]

lemma distributeError_preserve_ne {w h x y : ℕ} {aR aG aB : ℚ} {dx dy : ℤ} {d : ℕ → ℕ}
    (i : ℕ)
    (hne : i ≠ (((y : ℤ) + dy).toNat * w + ((x : ℤ) + dx).toNat) * 4
      ∧ i ≠ (((y : ℤ) + dy).toNat * w + ((x : ℤ) + dx).toNat) * 4 + 1
      ∧ i ≠ (((y : ℤ) + dy).toNat * w + ((x : ℤ) + dx).toNat) * 4 + 2) :
    distributeError w h x y aR aG aB dx dy d i = d i := by
  simp only [distributeError]
  by_cases hg : 0 ≤ (x : ℤ) + dx ∧ (x : ℤ) + dx < (w : ℤ) ∧ 0 ≤ (y : ℤ) + dy ∧ (y : ℤ) + dy < (h : ℤ)
  · rw [if_pos hg]
    rw [Function.update_noteq hne.2.2, Function.update_noteq hne.2.1,
      Function.update_noteq hne.1]
  · rw [if_neg hg]

lemma distributeError_writes {w h x y : ℕ} {aR aG aB : ℚ} {dx dy : ℤ} {d : ℕ → ℕ}
    (hg : 0 ≤ (x : ℤ) + dx ∧ (x : ℤ) + dx < (w : ℤ) ∧ 0 ≤ (y : ℤ) + dy ∧ (y : ℤ) + dy < (h : ℤ)) :
    distributeError w h x y aR aG aB dx dy d
        ((((y : ℤ) + dy).toNat * w + ((x : ℤ) + dx).toNat) * 4) =
      clampByte ((d ((((y : ℤ) + dy).toNat * w + ((x : ℤ) + dx).toNat) * 4) : ℚ) + aR)
    ∧ distributeError w h x y aR aG aB dx dy d
        ((((y : ℤ) + dy).toNat * w + ((x : ℤ) + dx).toNat) * 4 + 1) =
      clampByte ((d ((((y : ℤ) + dy).toNat * w + ((x : ℤ) + dx).toNat) * 4 + 1) : ℚ) + aG)
    ∧ distributeError w h x y aR aG aB dx dy d
        ((((y : ℤ) + dy).toNat * w + ((x : ℤ) + dx).toNat) * 4 + 2) =
      clampByte ((d ((((y : ℤ) + dy).toNat * w + ((x : ℤ) + dx).toNat) * 4 + 2) : ℚ) + aB) := by
  simp only [distributeError]
  rw [if_pos hg]
  set q := ((y : ℤ) + dy).toNat * w + ((x : ℤ) + dx).toNat with hqdef
  refine ⟨?_, ?_, ?_⟩
  · rw [Function.update_noteq (by omega), Function.update_noteq (by omega),
      Function.update_same]
  · rw [Function.update_noteq (by omega), Function.update_same,
      Function.update_noteq (by omega)]
  · rw [Function.update_same, Function.update_noteq (by omega),
      Function.update_noteq (by omega)]

lemma distributeError_only {w h x y : ℕ} {aR aG aB : ℚ} {dx dy : ℤ} {d : ℕ → ℕ}
    (i : ℕ) (hne : distributeError w h x y aR aG aB dx dy d i ≠ d i) :
    (0 ≤ (x : ℤ) + dx ∧ (x : ℤ) + dx < (w : ℤ) ∧ 0 ≤ (y : ℤ) + dy ∧ (y : ℤ) + dy < (h : ℤ))
    ∧ (i = (((y : ℤ) + dy).toNat * w + ((x : ℤ) + dx).toNat) * 4
      ∨ i = (((y : ℤ) + dy).toNat * w + ((x : ℤ) + dx).toNat) * 4 + 1
      ∨ i = (((y : ℤ) + dy).toNat * w + ((x : ℤ) + dx).toNat) * 4 + 2) := by
  by_cases hg : 0 ≤ (x : ℤ) + dx ∧ (x : ℤ) + dx < (w : ℤ) ∧ 0 ≤ (y : ℤ) + dy ∧ (y : ℤ) + dy < (h : ℤ)
  · refine ⟨hg, ?_⟩
    by_contra hc
    push_neg at hc
    exact hne (distributeError_preserve_ne i ⟨hc.1, hc.2.1, hc.2.2⟩)
  · exfalso
    apply hne
    simp only [distributeError]
    rw [if_neg hg]

lemma distributeError_le {w h x y : ℕ} {aR aG aB : ℚ} {dx dy : ℤ} {d : ℕ → ℕ}
    (i : ℕ) :
    distributeError w h x y aR aG aB dx dy d i = d i
    ∨ distributeError w h x y aR aG aB dx dy d i ≤ 255 := by
  by_cases hg : 0 ≤ (x : ℤ) + dx ∧ (x : ℤ) + dx < (w : ℤ) ∧ 0 ≤ (y : ℤ) + dy ∧ (y : ℤ) + dy < (h : ℤ)
  · by_cases hi : i = (((y : ℤ) + dy).toNat * w + ((x : ℤ) + dx).toNat) * 4
      ∨ i = (((y : ℤ) + dy).toNat * w + ((x : ℤ) + dx).toNat) * 4 + 1
      ∨ i = (((y : ℤ) + dy).toNat * w + ((x : ℤ) + dx).toNat) * 4 + 2
    · right
      have hw := @distributeError_writes w h x y aR aG aB dx dy d hg
      rcases hi with hi | hi | hi <;> rw [hi]
      · rw [hw.1]
        exact clampByte_le_255 _
      · rw [hw.2.1]
        exact clampByte_le_255 _
      · rw [hw.2.2]
        exact clampByte_le_255 _
    · left
      push_neg at hi
      exact distributeError_preserve_ne i ⟨hi.1, hi.2.1, hi.2.2⟩
  · left
    simp only [distributeError]
    rw [if_neg hg]

lemma quantizeBW_val (d : ℕ → ℕ) (w x y : ℕ) :
    quantizeBW d w x y = 0 ∨ quantizeBW d w x y = 255 := by
  unfold quantizeBW
  split
  · right
    rfl
  · left
    rfl

lemma bayerQuant_val (d : ℕ → ℕ) (w x y : ℕ) :
    bayerQuant d w x y = 0 ∨ bayerQuant d w x y = 255 := by
  unfold bayerQuant
  split
  · right
    rfl
  · left
    rfl

lemma fsStep_preserve {w h : ℕ} (d : ℕ → ℕ) (x y : ℕ) (i : ℕ) (hx : x < w)
    (hi : i < (y * w + x) * 4) : fsStep w h d x y i = d i := by
  simp only [fsStep]
  rw [distributeError_preserve_le hx (Or.inr one_pos) i (by omega),
    distributeError_preserve_le hx (Or.inr one_pos) i (by omega),
    distributeError_preserve_le hx (Or.inr one_pos) i (by omega),
    distributeError_preserve_le hx (Or.inl ⟨rfl, one_pos⟩) i (by omega),
    Function.update_noteq (by omega), Function.update_noteq (by omega),
    Function.update_noteq (by omega)]

lemma fsStep_alpha {w h : ℕ} (d : ℕ → ℕ) (x y : ℕ) (i : ℕ) (hi : i % 4 = 3) :
    fsStep w h d x y i = d i := by
  simp only [fsStep]
  rw [distributeError_alpha i hi, distributeError_alpha i hi,
    distributeError_alpha i hi, distributeError_alpha i hi,
    Function.update_noteq (by omega), Function.update_noteq (by omega),
    Function.update_noteq (by omega)]

lemma fsStep_sets {w h : ℕ} (d : ℕ → ℕ) (x y c : ℕ) (hx : x < w) (hc : c < 3) :
    fsStep w h d x y ((y * w + x) * 4 + c) = quantizeBW d w x y := by
  simp only [fsStep]
  rw [distributeError_preserve_le hx (Or.inr one_pos) _ (by omega),
    distributeError_preserve_le hx (Or.inr one_pos) _ (by omega),
    distributeError_preserve_le hx (Or.inr one_pos) _ (by omega),
    distributeError_preserve_le hx (Or.inl ⟨rfl, one_pos⟩) _ (by omega)]
  interval_cases c
  · rw [Function.update_noteq (by omega), Function.update_noteq (by omega),
      Nat.add_zero, Function.update_same]
  · rw [Function.update_noteq (by omega), Function.update_same]
  · rw [Function.update_same]

lemma atkStep_preserve {w h : ℕ} (d : ℕ → ℕ) (x y : ℕ) (i : ℕ) (hx : x < w)
    (hi : i < (y * w + x) * 4) : atkStep w h d x y i = d i := by
  simp only [atkStep]
  rw [distributeError_preserve_le hx (Or.inr two_pos) i (by omega),
    distributeError_preserve_le hx (Or.inr one_pos) i (by omega),
    distributeError_preserve_le hx (Or.inr one_pos) i (by omega),
    distributeError_preserve_le hx (Or.inr one_pos) i (by omega),
    distributeError_preserve_le hx (Or.inl ⟨rfl, two_pos⟩) i (by omega),
    distributeError_preserve_le hx (Or.inl ⟨rfl, one_pos⟩) i (by omega),
    Function.update_noteq (by omega), Function.update_noteq (by omega),
    Function.update_noteq (by omega)]

lemma atkStep_alpha {w h : ℕ} (d : ℕ → ℕ) (x y : ℕ) (i : ℕ) (hi : i % 4 = 3) :
    atkStep w h d x y i = d i := by
  simp only [atkStep]
  rw [distributeError_alpha i hi, distributeError_alpha i hi,
    distributeError_alpha i hi, distributeError_alpha i hi,
    distributeError_alpha i hi, distributeError_alpha i hi,
    Function.update_noteq (by omega), Function.update_noteq (by omega),
    Function.update_noteq (by omega)]

lemma atkStep_sets {w h : ℕ} (d : ℕ → ℕ) (x y c : ℕ) (hx : x < w) (hc : c < 3) :
    atkStep w h d x y ((y * w + x) * 4 + c) = quantizeBW d w x y := by
  simp only [atkStep]
  rw [distributeError_preserve_le hx (Or.inr two_pos) _ (by omega),
    distributeError_preserve_le hx (Or.inr one_pos) _ (by omega),
    distributeError_preserve_le hx (Or.inr one_pos) _ (by omega),
    distributeError_preserve_le hx (Or.inr one_pos) _ (by omega),
    distributeError_preserve_le hx (Or.inl ⟨rfl, two_pos⟩) _ (by omega),
    distributeError_preserve_le hx (Or.inl ⟨rfl, one_pos⟩) _ (by omega)]
  interval_cases c
  · rw [Function.update_noteq (by omega), Function.update_noteq (by omega),
      Nat.add_zero, Function.update_same]
  · rw [Function.update_noteq (by omega), Function.update_same]
  · rw [Function.update_same]

lemma bayerStep_preserve {w : ℕ} (d : ℕ → ℕ) (x y : ℕ) (i : ℕ) (hx : x < w)
    (hi : i < (y * w + x) * 4) : bayerStep w d x y i = d i := by
  simp only [bayerStep]
  rw [Function.update_noteq (by omega), Function.update_noteq (by omega),
    Function.update_noteq (by omega)]

lemma bayerStep_alpha {w : ℕ} (d : ℕ → ℕ) (x y : ℕ) (i : ℕ) (hi : i % 4 = 3) :
    bayerStep w d x y i = d i := by
  simp only [bayerStep]
  rw [Function.update_noteq (by omega), Function.update_noteq (by omega),
    Function.update_noteq (by omega)]

lemma bayerStep_sets {w : ℕ} (d : ℕ → ℕ) (x y c : ℕ) (hx : x < w) (hc : c < 3) :
    bayerStep w d x y ((y * w + x) * 4 + c) = bayerQuant d w x y := by
  simp only [bayerStep]
  interval_cases c
  · rw [Function.update_noteq (by omega), Function.update_noteq (by omega),
      Nat.add_zero, Function.update_same]
  · rw [Function.update_noteq (by omega), Function.update_same]
  · rw [Function.update_same]

lemma rowLoopN_preserve (w : ℕ) (step : (ℕ → ℕ) → ℕ → ℕ → (ℕ → ℕ))
    (hpres : ∀ d x y i, x < w → i < (y * w + x) * 4 → step d x y i = d i)
    (y n : ℕ) (d : ℕ → ℕ) (i : ℕ) (hi : i < (y * w) * 4) (hn : n ≤ w) :
    rowLoopN step y n d i = d i := by
  revert hn
  induction n with
  | zero => intro _; rfl
  | succ m ih =>
    intro hn
    rw [rowLoopN, List.range_succ, List.foldl_append, List.foldl_cons, List.foldl_nil]
    rw [hpres _ m y i (by omega) (by omega)]
    exact ih (by omega)

lemma rowLoopN_alpha (w : ℕ) (step : (ℕ → ℕ) → ℕ → ℕ → (ℕ → ℕ))
    (halpha : ∀ d x y i, i % 4 = 3 → step d x y i = d i)
    (y n : ℕ) (d : ℕ → ℕ) (i : ℕ) (hi : i % 4 = 3) :
    rowLoopN step y n d i = d i := by
  induction n with
  | zero => rfl
  | succ m ih =>
    rw [rowLoopN, List.range_succ, List.foldl_append, List.foldl_cons, List.foldl_nil]
    rw [halpha _ m y i hi]
    exact ih

lemma rowLoopN_sets (w : ℕ) (step : (ℕ → ℕ) → ℕ → ℕ → (ℕ → ℕ))
    (quant : (ℕ → ℕ) → ℕ → ℕ → ℕ)
    (hpres : ∀ d x y i, x < w → i < (y * w + x) * 4 → step d x y i = d i)
    (hsets : ∀ d x y c, x < w → c < 3 → step d x y ((y * w + x) * 4 + c) = quant d x y)
    (y n x c : ℕ) (d : ℕ → ℕ) (hc : c < 3) (hx : x < n) (hn : n ≤ w) :
    rowLoopN step y n d ((y * w + x) * 4 + c) = quant (rowLoopN step y x d) x y := by
  revert hx hn
  induction n with
  | zero => intro hx _; omega
  | succ m ih =>
    intro hx hn
    rw [rowLoopN, List.range_succ, List.foldl_append, List.foldl_cons, List.foldl_nil]
    by_cases hxm : x = m
    · subst hxm
      exact hsets _ x y c (by omega) hc
    · rw [hpres _ m y _ (by omega) (by omega)]
      exact ih (by omega) (by omega)

lemma gridLoopN_alpha (w : ℕ) (step : (ℕ → ℕ) → ℕ → ℕ → (ℕ → ℕ))
    (halpha : ∀ d x y i, i % 4 = 3 → step d x y i = d i)
    (m : ℕ) (d : ℕ → ℕ) (i : ℕ) (hi : i % 4 = 3) :
    gridLoopN step w m d i = d i := by
  induction m with
  | zero => rfl
  | succ k ih =>
    rw [gridLoopN, List.range_succ, List.foldl_append, List.foldl_cons, List.foldl_nil]
    rw [rowLoopN_alpha w step halpha k w _ i hi]
    exact ih

lemma gridLoopN_sets (w : ℕ) (step : (ℕ → ℕ) → ℕ → ℕ → (ℕ → ℕ))
    (quant : (ℕ → ℕ) → ℕ → ℕ → ℕ)
    (hpres : ∀ d x y i, x < w → i < (y * w + x) * 4 → step d x y i = d i)
    (hsets : ∀ d x y c, x < w → c < 3 → step d x y ((y * w + x) * 4 + c) = quant d x y)
    (m y x c : ℕ) (d : ℕ → ℕ) (hc : c < 3) (hx : x < w) (hy : y < m) :
    gridLoopN step w m d ((y * w + x) * 4 + c) =
      quant (rowLoopN step y x (gridLoopN step w y d)) x y := by
  revert hy
  induction m with
  | zero => intro hy; omega
  | succ k ih =>
    intro hy
    rw [gridLoopN, List.range_succ, List.foldl_append, List.foldl_cons, List.foldl_nil]
    by_cases hyk : y = k
    · subst hyk
      exact rowLoopN_sets w step quant hpres hsets y w x c _ hc hx le_rfl
    · have hle : y * w + w ≤ k * w := by
        have h1 : (y + 1) * w ≤ k * w := Nat.mul_le_mul_right w (by omega)
        calc y * w + w = (y + 1) * w := by ring
          _ ≤ k * w := h1
      rw [rowLoopN_preserve w step hpres k w _ _ (by omega) le_rfl]
      exact ih (by omega)

/-- C2: each of the three dithers returns a new buffer of the same width and
height; in it every in-bounds pixel R, G, B channels are each exactly `0`
or exactly `255`, and every pixel alpha channel is the alpha of the input. The
input buffer itself is untouched: each dither works on a fresh copy of the
data (`new Uint8ClampedArray(imageData.data)`), which the functional
embedding renders by returning a new `ImageData` value. -/
theorem dithers_monochrome (img : ImageData) (x y c : ℕ)
    (hx : x < img.width) (hy : y < img.height) (hc : c < 3) :
    ((floydSteinbergDither img).width = img.width
      ∧ (floydSteinbergDither img).height = img.height
      ∧ ((floydSteinbergDither img).data ((y * img.width + x) * 4 + c) = 0
        ∨ (floydSteinbergDither img).data ((y * img.width + x) * 4 + c) = 255)
      ∧ (floydSteinbergDither img).data ((y * img.width + x) * 4 + 3) =
          img.data ((y * img.width + x) * 4 + 3))
    ∧ ((atkinsonDither img).width = img.width
      ∧ (atkinsonDither img).height = img.height
      ∧ ((atkinsonDither img).data ((y * img.width + x) * 4 + c) = 0
        ∨ (atkinsonDither img).data ((y * img.width + x) * 4 + c) = 255)
      ∧ (atkinsonDither img).data ((y * img.width + x) * 4 + 3) =
          img.data ((y * img.width + x) * 4 + 3))
    ∧ ((bayerDither img).width = img.width
      ∧ (bayerDither img).height = img.height
      ∧ ((bayerDither img).data ((y * img.width + x) * 4 + c) = 0
        ∨ (bayerDither img).data ((y * img.width + x) * 4 + c) = 255)
      ∧ (bayerDither img).data ((y * img.width + x) * 4 + 3) =
          img.data ((y * img.width + x) * 4 + 3)) := by
  refine ⟨⟨rfl, rfl, ?_, ?_⟩, ⟨rfl, rfl, ?_, ?_⟩, ⟨rfl, rfl, ?_, ?_⟩⟩
  · rw [show (floydSteinbergDither img).data =
      gridLoopN (fsStep img.width img.height) img.width img.height img.data from rfl]
    rw [gridLoopN_sets img.width (fsStep img.width img.height)
      (fun d x y => quantizeBW d img.width x y)
      (fun d x y i hx hi => fsStep_preserve d x y i hx hi)
      (fun d x y c hx hc => fsStep_sets d x y c hx hc)
      img.height y x c img.data hc hx hy]
    exact quantizeBW_val _ _ _ _
  · show gridLoopN (fsStep img.width img.height) img.width img.height img.data _ = _
    exact gridLoopN_alpha img.width (fsStep img.width img.height)
      (fun d x y i hi => fsStep_alpha d x y i hi) img.height img.data _ (by omega)
  · rw [show (atkinsonDither img).data =
      gridLoopN (atkStep img.width img.height) img.width img.height img.data from rfl]
    rw [gridLoopN_sets img.width (atkStep img.width img.height)
      (fun d x y => quantizeBW d img.width x y)
      (fun d x y i hx hi => atkStep_preserve d x y i hx hi)
      (fun d x y c hx hc => atkStep_sets d x y c hx hc)
      img.height y x c img.data hc hx hy]
    exact quantizeBW_val _ _ _ _
  · show gridLoopN (atkStep img.width img.height) img.width img.height img.data _ = _
    exact gridLoopN_alpha img.width (atkStep img.width img.height)
      (fun d x y i hi => atkStep_alpha d x y i hi) img.height img.data _ (by omega)
  · rw [show (bayerDither img).data =
      gridLoopN (bayerStep img.width) img.width img.height img.data from rfl]
    rw [gridLoopN_sets img.width (bayerStep img.width)
      (fun d x y => bayerQuant d img.width x y)
      (fun d x y i hx hi => bayerStep_preserve d x y i hx hi)
      (fun d x y c hx hc => bayerStep_sets d x y c hx hc)
      img.height y x c img.data hc hx hy]
    exact bayerQuant_val _ _ _ _
  · show gridLoopN (bayerStep img.width) img.width img.height img.data _ = _
    exact gridLoopN_alpha img.width (bayerStep img.width)
      (fun d x y i hi => bayerStep_alpha d x y i hi) img.height img.data _ (by omega)

/-- A 2×2 mid-grey RGBA buffer used as a concrete witness input. -/
def demoImage : ImageData := ⟨2, 2, fun _ => 100⟩

/-- Witness for C2 at the 2×2 grey buffer, pixel `(0,0)`, red channel. -/
theorem dithers_monochrome_witness :
    ((floydSteinbergDither demoImage).data 0 = 0
      ∨ (floydSteinbergDither demoImage).data 0 = 255)
    ∧ (bayerDither demoImage).data 3 = demoImage.data 3 := by
  have h := dithers_monochrome demoImage 0 0 0 (by decide) (by decide) (by decide)
  exact ⟨h.1.2.2.1, h.2.2.2.2.2⟩

lemma distributeError_preserve_ne_nat {w h x y : ℕ} {aR aG aB : ℚ} {dx dy : ℤ}
    {d : ℕ → ℕ} (i : ℕ)
    (hi : ∀ ny nx : ℕ, (ny : ℤ) = (y : ℤ) + dy → (nx : ℤ) = (x : ℤ) + dx →
      nx < w → ny < h → (i < (ny * w + nx) * 4 ∨ (ny * w + nx) * 4 + 2 < i)) :
    distributeError w h x y aR aG aB dx dy d i = d i := by
  by_cases hg : 0 ≤ (x : ℤ) + dx ∧ (x : ℤ) + dx < (w : ℤ) ∧ 0 ≤ (y : ℤ) + dy ∧ (y : ℤ) + dy < (h : ℤ)
  · have hny : (((((y : ℤ) + dy).toNat) : ℕ) : ℤ) = (y : ℤ) + dy := by omega
    have hnx : (((((x : ℤ) + dx).toNat) : ℕ) : ℤ) = (x : ℤ) + dx := by omega
    have hxw : ((x : ℤ) + dx).toNat < w := by omega
    have hyh : ((y : ℤ) + dy).toNat < h := by omega
    rcases hi _ _ hny hnx hxw hyh with hlt | hgt
    · exact distributeError_preserve_ne i ⟨by omega, by omega, by omega⟩
    · exact distributeError_preserve_ne i ⟨by omega, by omega, by omega⟩
  · simp only [distributeError]
    rw [if_neg hg]

lemma distributeError_writes_nat {w h x y : ℕ} {aR aG aB : ℚ} {dx dy : ℤ}
    {d : ℕ → ℕ} (nx ny : ℕ)
    (hnx : (nx : ℤ) = (x : ℤ) + dx) (hny : (ny : ℤ) = (y : ℤ) + dy)
    (hxw : nx < w) (hyh : ny < h) (c : ℕ) (hc : c < 3) :
    distributeError w h x y aR aG aB dx dy d ((ny * w + nx) * 4 + c) =
      clampByte ((d ((ny * w + nx) * 4 + c) : ℚ) +
        (if c = 0 then aR else if c = 1 then aG else aB)) := by
  have hg : 0 ≤ (x : ℤ) + dx ∧ (x : ℤ) + dx < (w : ℤ) ∧ 0 ≤ (y : ℤ) + dy ∧ (y : ℤ) + dy < (h : ℤ) := by
    omega
  have hw := @distributeError_writes w h x y aR aG aB dx dy d hg
  have e1 : ((x : ℤ) + dx).toNat = nx := by omega
  have e2 : ((y : ℤ) + dy).toNat = ny := by omega
  rw [e1, e2] at hw
  interval_cases c
  · simpa using hw.1
  · simpa using hw.2.1
  · simpa using hw.2.2

lemma quantizeBW_le (d : ℕ → ℕ) (w x y : ℕ) : quantizeBW d w x y ≤ 255 := by
  rcases quantizeBW_val d w x y with h | h <;> omega

lemma step255_comp {F g d : ℕ → ℕ} (h1 : ∀ i, F i = g i ∨ F i ≤ 255)
    (h2 : ∀ i, g i = d i ∨ g i ≤ 255) : ∀ i, F i = d i ∨ F i ≤ 255 := by
  intro i
  rcases h1 i with e | le
  · rcases h2 i with e2 | le2
    · exact Or.inl (e.trans e2)
    · exact Or.inr (e ▸ le2)
  · exact Or.inr le

lemma changed_comp {F g d : ℕ → ℕ} {P Q : ℕ → Prop} (h1 : ∀ i, F i ≠ g i → P i)
    (h2 : ∀ i, g i ≠ d i → Q i) : ∀ i, F i ≠ d i → P i ∨ Q i := by
  intro i hne
  by_cases e : F i = g i
  · exact Or.inr (h2 i (fun hgd => hne (e.trans hgd)))
  · exact Or.inl (h1 i e)

lemma update3_changed {d : ℕ → ℕ} {p v : ℕ} (i : ℕ)
    (hne : Function.update (Function.update (Function.update d (p * 4) v)
      (p * 4 + 1) v) (p * 4 + 2) v i ≠ d i) :
    i = p * 4 ∨ i = p * 4 + 1 ∨ i = p * 4 + 2 := by
  by_contra hc
  push_neg at hc
  exact hne (by
    rw [Function.update_noteq hc.2.2, Function.update_noteq hc.2.1,
      Function.update_noteq hc.1])

lemma update3_le {d : ℕ → ℕ} {p v : ℕ} (hv : v ≤ 255) (i : ℕ) :
    Function.update (Function.update (Function.update d (p * 4) v)
      (p * 4 + 1) v) (p * 4 + 2) v i = d i
    ∨ Function.update (Function.update (Function.update d (p * 4) v)
      (p * 4 + 1) v) (p * 4 + 2) v i ≤ 255 := by
  by_cases h2 : i = p * 4 + 2
  · right
    rw [h2, Function.update_same]
    exact hv
  · by_cases h1 : i = p * 4 + 1
    · right
      rw [Function.update_noteq (by omega), h1, Function.update_same]
      exact hv
    · by_cases h0 : i = p * 4
      · right
        rw [Function.update_noteq (by omega), Function.update_noteq (by omega),
          h0, Function.update_same]
        exact hv
      · left
        rw [Function.update_noteq (by omega), Function.update_noteq (by omega),
          Function.update_noteq (by omega)]

lemma fsStep_right {w h : ℕ} (d : ℕ → ℕ) (x y c : ℕ) (hc : c < 3)
    (hx1 : x + 1 < w) (hy : y < h) :
    fsStep w h d x y ((y * w + (x + 1)) * 4 + c) =
      clampByte ((d ((y * w + (x + 1)) * 4 + c) : ℚ) +
        ((d ((y * w + x) * 4 + c) : ℚ) - (quantizeBW d w x y : ℚ)) * (7 / 16)) := by
  have hm : (y + 1) * w = y * w + w := by ring
  simp only [fsStep]
  rw [distributeError_preserve_ne_nat _ (by
    intro ny nx hny hnx hxw hyh
    have hey : ny = y + 1 := by omega
    have hex : nx = x + 1 := by omega
    subst hey hex
    omega)]
  rw [distributeError_preserve_ne_nat _ (by
    intro ny nx hny hnx hxw hyh
    have hey : ny = y + 1 := by omega
    have hex : nx = x := by omega
    subst hey hex
    omega)]
  rw [distributeError_preserve_ne_nat _ (by
    intro ny nx hny hnx hxw hyh
    have hey : ny = y + 1 := by omega
    have hex : nx = x - 1 := by omega
    subst hey hex
    omega)]
  rw [distributeError_writes_nat (x + 1) y (by omega) (by omega) hx1 hy c hc]
  rw [Function.update_noteq (by omega), Function.update_noteq (by omega),
    Function.update_noteq (by omega)]
  congr 1
  congr 1
  interval_cases c <;> norm_num

lemma fsStep_belowLeft {w h : ℕ} (d : ℕ → ℕ) (x y c : ℕ) (hc : c < 3)
    (hx : x < w) (hx1 : 1 ≤ x) (hy1 : y + 1 < h) :
    fsStep w h d x y (((y + 1) * w + (x - 1)) * 4 + c) =
      clampByte ((d (((y + 1) * w + (x - 1)) * 4 + c) : ℚ) +
        ((d ((y * w + x) * 4 + c) : ℚ) - (quantizeBW d w x y : ℚ)) * (3 / 16)) := by
  have hm : (y + 1) * w = y * w + w := by ring
  simp only [fsStep]
  rw [distributeError_preserve_ne_nat _ (by
    intro ny nx hny hnx hxw hyh
    have hey : ny = y + 1 := by omega
    have hex : nx = x + 1 := by omega
    subst hey hex
    omega)]
  rw [distributeError_preserve_ne_nat _ (by
    intro ny nx hny hnx hxw hyh
    have hey : ny = y + 1 := by omega
    have hex : nx = x := by omega
    subst hey hex
    omega)]
  rw [distributeError_writes_nat (x - 1) (y + 1) (by omega) (by omega) (by omega) hy1 c hc]
  rw [distributeError_preserve_ne_nat _ (by
    intro ny nx hny hnx hxw hyh
    have hey : ny = y := by omega
    have hex : nx = x + 1 := by omega
    subst hey hex
    omega)]
  rw [Function.update_noteq (by omega), Function.update_noteq (by omega),
    Function.update_noteq (by omega)]
  congr 1
  congr 1
  interval_cases c <;> norm_num

lemma fsStep_below {w h : ℕ} (d : ℕ → ℕ) (x y c : ℕ) (hc : c < 3)
    (hx : x < w) (hy1 : y + 1 < h) :
    fsStep w h d x y (((y + 1) * w + x) * 4 + c) =
      clampByte ((d (((y + 1) * w + x) * 4 + c) : ℚ) +
        ((d ((y * w + x) * 4 + c) : ℚ) - (quantizeBW d w x y : ℚ)) * (5 / 16)) := by
  have hm : (y + 1) * w = y * w + w := by ring
  simp only [fsStep]
  rw [distributeError_preserve_ne_nat _ (by
    intro ny nx hny hnx hxw hyh
    have hey : ny = y + 1 := by omega
    have hex : nx = x + 1 := by omega
    subst hey hex
    omega)]
  rw [distributeError_writes_nat x (y + 1) (by omega) (by omega) hx hy1 c hc]
  rw [distributeError_preserve_ne_nat _ (by
    intro ny nx hny hnx hxw hyh
    have hey : ny = y + 1 := by omega
    have hex : nx = x - 1 := by omega
    subst hey hex
    omega)]
  rw [distributeError_preserve_ne_nat _ (by
    intro ny nx hny hnx hxw hyh
    have hey : ny = y := by omega
    have hex : nx = x + 1 := by omega
    subst hey hex
    omega)]
  rw [Function.update_noteq (by omega), Function.update_noteq (by omega),
    Function.update_noteq (by omega)]
  congr 1
  congr 1
  interval_cases c <;> norm_num

lemma fsStep_belowRight {w h : ℕ} (d : ℕ → ℕ) (x y c : ℕ) (hc : c < 3)
    (hx1 : x + 1 < w) (hy1 : y + 1 < h) :
    fsStep w h d x y (((y + 1) * w + (x + 1)) * 4 + c) =
      clampByte ((d (((y + 1) * w + (x + 1)) * 4 + c) : ℚ) +
        ((d ((y * w + x) * 4 + c) : ℚ) - (quantizeBW d w x y : ℚ)) * (1 / 16)) := by
  have hm : (y + 1) * w = y * w + w := by ring
  simp only [fsStep]
  rw [distributeError_writes_nat (x + 1) (y + 1) (by omega) (by omega) hx1 hy1 c hc]
  rw [distributeError_preserve_ne_nat _ (by
    intro ny nx hny hnx hxw hyh
    have hey : ny = y + 1 := by omega
    have hex : nx = x := by omega
    subst hey hex
    omega)]
  rw [distributeError_preserve_ne_nat _ (by
    intro ny nx hny hnx hxw hyh
    have hey : ny = y + 1 := by omega
    have hex : nx = x - 1 := by omega
    subst hey hex
    omega)]
  rw [distributeError_preserve_ne_nat _ (by
    intro ny nx hny hnx hxw hyh
    have hey : ny = y := by omega
    have hex : nx = x + 1 := by omega
    subst hey hex
    omega)]
  rw [Function.update_noteq (by omega), Function.update_noteq (by omega),
    Function.update_noteq (by omega)]
  congr 1
  congr 1
  interval_cases c <;> norm_num

lemma fsStep_le {w h : ℕ} (d : ℕ → ℕ) (x y : ℕ) :
    ∀ i, fsStep w h d x y i = d i ∨ fsStep w h d x y i ≤ 255 := by
  simp only [fsStep]
  exact step255_comp (fun i => distributeError_le i)
    (step255_comp (fun i => distributeError_le i)
      (step255_comp (fun i => distributeError_le i)
        (step255_comp (fun i => distributeError_le i)
          (update3_le (quantizeBW_le d w x y)))))

lemma fsStep_writes_only {w h : ℕ} (d : ℕ → ℕ) (x y : ℕ) (hx : x < w) :
    ∀ i, fsStep w h d x y i ≠ d i →
      ∃ k, k < 3 ∧ (i = (y * w + x) * 4 + k
        ∨ (x + 1 < w ∧ y < h ∧ i = (y * w + (x + 1)) * 4 + k)
        ∨ (1 ≤ x ∧ x - 1 < w ∧ y + 1 < h ∧ i = ((y + 1) * w + (x - 1)) * 4 + k)
        ∨ (x < w ∧ y + 1 < h ∧ i = ((y + 1) * w + x) * 4 + k)
        ∨ (x + 1 < w ∧ y + 1 < h ∧ i = ((y + 1) * w + (x + 1)) * 4 + k)) := by
  intro i hne
  simp only [fsStep] at hne
  rcases changed_comp (fun j hne2 => distributeError_only j hne2)
    (changed_comp (fun j hne2 => distributeError_only j hne2)
      (changed_comp (fun j hne2 => distributeError_only j hne2)
        (changed_comp (fun j hne2 => distributeError_only j hne2)
          (fun j hne2 => update3_changed j hne2)))) i hne with
    hca | hca | hca | hca | hca
  · obtain ⟨hg, hor⟩ := hca
    have e2 : (((y : ℤ) + 1).toNat) = y + 1 := by omega
    have e1 : (((x : ℤ) + 1).toNat) = x + 1 := by omega
    rw [e2, e1] at hor
    have hk : ∃ k, k < 3 ∧ i = ((y + 1) * w + (x + 1)) * 4 + k := by
      rcases hor with h' | h' | h'
      · exact ⟨0, by norm_num, by omega⟩
      · exact ⟨1, by norm_num, by omega⟩
      · exact ⟨2, by norm_num, by omega⟩
    obtain ⟨k, hk3, hik⟩ := hk
    exact ⟨k, hk3, Or.inr (Or.inr (Or.inr (Or.inr ⟨by omega, by omega, hik⟩)))⟩
  · obtain ⟨hg, hor⟩ := hca
    have e2 : (((y : ℤ) + 1).toNat) = y + 1 := by omega
    have e1 : (((x : ℤ) + 0).toNat) = x := by omega
    rw [e2, e1] at hor
    have hk : ∃ k, k < 3 ∧ i = ((y + 1) * w + x) * 4 + k := by
      rcases hor with h' | h' | h'
      · exact ⟨0, by norm_num, by omega⟩
      · exact ⟨1, by norm_num, by omega⟩
      · exact ⟨2, by norm_num, by omega⟩
    obtain ⟨k, hk3, hik⟩ := hk
    exact ⟨k, hk3, Or.inr (Or.inr (Or.inr (Or.inl ⟨by omega, by omega, hik⟩)))⟩
  · obtain ⟨hg, hor⟩ := hca
    have e2 : (((y : ℤ) + 1).toNat) = y + 1 := by omega
    have e1 : (((x : ℤ) + -1).toNat) = x - 1 := by omega
    rw [e2, e1] at hor
    have hk : ∃ k, k < 3 ∧ i = ((y + 1) * w + (x - 1)) * 4 + k := by
      rcases hor with h' | h' | h'
      · exact ⟨0, by norm_num, by omega⟩
      · exact ⟨1, by norm_num, by omega⟩
      · exact ⟨2, by norm_num, by omega⟩
    obtain ⟨k, hk3, hik⟩ := hk
    exact ⟨k, hk3, Or.inr (Or.inr (Or.inl ⟨by omega, by omega, by omega, hik⟩))⟩
  · obtain ⟨hg, hor⟩ := hca
    have e2 : (((y : ℤ) + 0).toNat) = y := by omega
    have e1 : (((x : ℤ) + 1).toNat) = x + 1 := by omega
    rw [e2, e1] at hor
    have hk : ∃ k, k < 3 ∧ i = (y * w + (x + 1)) * 4 + k := by
      rcases hor with h' | h' | h'
      · exact ⟨0, by norm_num, by omega⟩
      · exact ⟨1, by norm_num, by omega⟩
      · exact ⟨2, by norm_num, by omega⟩
    obtain ⟨k, hk3, hik⟩ := hk
    exact ⟨k, hk3, Or.inr (Or.inl ⟨by omega, by omega, hik⟩)⟩
  · rcases hca with h' | h' | h'
    · exact ⟨0, by norm_num, Or.inl (by omega)⟩
    · exact ⟨1, by norm_num, Or.inl (by omega)⟩
    · exact ⟨2, by norm_num, Or.inl (by omega)⟩

/-- C3: `floydSteinbergDither` processes pixels in row-major order; each
in-bounds output channel equals the 128-threshold quantization of the state
accumulated from all earlier pixels (earlier rows fully processed, then the
earlier columns of the current row); the quantization is
`lum > 128 ? 255 : 0`; one step adds `7/16` of the per-channel error
`old − new` to `(x+1, y)`, `3/16` to `(x-1, y+1)`, `5/16` to `(x, y+1)` and
`1/16` to `(x+1, y+1)`, writing each as a clamped byte in `[0, 255]`; a step
writes nothing except its own pixel and those in-bounds neighbours, so
out-of-bounds targets are skipped. -/
theorem floydSteinberg_spec (img : ImageData) (w h : ℕ) (d : ℕ → ℕ) (x y c : ℕ)
    (hc : c < 3) :
    (x < img.width → y < img.height →
      (floydSteinbergDither img).data ((y * img.width + x) * 4 + c) =
        quantizeBW (rowLoopN (fsStep img.width img.height) y x
          (gridLoopN (fsStep img.width img.height) img.width y img.data)) img.width x y)
    ∧ quantizeBW d w x y =
        (if 128 < calculateLuminance (d ((y * w + x) * 4)) (d ((y * w + x) * 4 + 1))
          (d ((y * w + x) * 4 + 2)) then 255 else 0)
    ∧ (x + 1 < w → y < h →
      fsStep w h d x y ((y * w + (x + 1)) * 4 + c) =
        clampByte ((d ((y * w + (x + 1)) * 4 + c) : ℚ) +
          ((d ((y * w + x) * 4 + c) : ℚ) - (quantizeBW d w x y : ℚ)) * (7 / 16)))
    ∧ (x < w → 1 ≤ x → y + 1 < h →
      fsStep w h d x y (((y + 1) * w + (x - 1)) * 4 + c) =
        clampByte ((d (((y + 1) * w + (x - 1)) * 4 + c) : ℚ) +
          ((d ((y * w + x) * 4 + c) : ℚ) - (quantizeBW d w x y : ℚ)) * (3 / 16)))
    ∧ (x < w → y + 1 < h →
      fsStep w h d x y (((y + 1) * w + x) * 4 + c) =
        clampByte ((d (((y + 1) * w + x) * 4 + c) : ℚ) +
          ((d ((y * w + x) * 4 + c) : ℚ) - (quantizeBW d w x y : ℚ)) * (5 / 16)))
    ∧ (x + 1 < w → y + 1 < h →
      fsStep w h d x y (((y + 1) * w + (x + 1)) * 4 + c) =
        clampByte ((d (((y + 1) * w + (x + 1)) * 4 + c) : ℚ) +
          ((d ((y * w + x) * 4 + c) : ℚ) - (quantizeBW d w x y : ℚ)) * (1 / 16)))
    ∧ (x < w → ∀ i, fsStep w h d x y i ≠ d i →
      ∃ k, k < 3 ∧ (i = (y * w + x) * 4 + k
        ∨ (x + 1 < w ∧ y < h ∧ i = (y * w + (x + 1)) * 4 + k)
        ∨ (1 ≤ x ∧ x - 1 < w ∧ y + 1 < h ∧ i = ((y + 1) * w + (x - 1)) * 4 + k)
        ∨ (x < w ∧ y + 1 < h ∧ i = ((y + 1) * w + x) * 4 + k)
        ∨ (x + 1 < w ∧ y + 1 < h ∧ i = ((y + 1) * w + (x + 1)) * 4 + k)))
    ∧ (∀ i, fsStep w h d x y i = d i ∨ fsStep w h d x y i ≤ 255) := by
  refine ⟨?_, rfl, ?_, ?_, ?_, ?_, ?_, fsStep_le d x y⟩
  · intro hx hy
    rw [show (floydSteinbergDither img).data =
        gridLoopN (fsStep img.width img.height) img.width img.height img.data from rfl]
    exact gridLoopN_sets img.width (fsStep img.width img.height)
      (fun d x y => quantizeBW d img.width x y)
      (fun d x y i hx hi => fsStep_preserve d x y i hx hi)
      (fun d x y c hx hc => fsStep_sets d x y c hx hc)
      img.height y x c img.data hc hx hy
  · intro hx1 hy
    exact fsStep_right d x y c hc hx1 hy
  · intro hx hx1 hy1
    exact fsStep_belowLeft d x y c hc hx hx1 hy1
  · intro hx hy1
    exact fsStep_below d x y c hc hx hy1
  · intro hx1 hy1
    exact fsStep_belowRight d x y c hc hx1 hy1
  · intro hx
    exact fsStep_writes_only d x y hx

/-- Witness for C3 at the 2×2 grey buffer: the `7/16` write of the step at
pixel `(0,0)` and the prefix characterization of output channel `(0,0,0)`. -/
theorem floydSteinberg_spec_witness :
    fsStep 2 2 demoImage.data 0 0 ((0 * 2 + (0 + 1)) * 4 + 0) =
      clampByte ((demoImage.data ((0 * 2 + (0 + 1)) * 4 + 0) : ℚ) +
        ((demoImage.data ((0 * 2 + 0) * 4 + 0) : ℚ) -
          (quantizeBW demoImage.data 2 0 0 : ℚ)) * (7 / 16))
    ∧ (floydSteinbergDither demoImage).data ((0 * demoImage.width + 0) * 4 + 0) =
        quantizeBW (rowLoopN (fsStep demoImage.width demoImage.height) 0 0
          (gridLoopN (fsStep demoImage.width demoImage.height) demoImage.width 0
            demoImage.data)) demoImage.width 0 0 := by
  have h := floydSteinberg_spec demoImage 2 2 demoImage.data 0 0 0 (by decide)
  exact ⟨h.2.2.1 (by decide) (by decide), h.1 (by decide) (by decide)⟩

/-- JS `%` for the non-negative dividends and positive divisors arising in
the animation loop: `a - b * ⌊a / b⌋`. -/
def jsMod (a b : ℚ) : ℚ := a - b * ⌊a / b⌋

/-- The state of `AsciiVideoEngine._animate`: `lastFrameTime` plus the
timestamps at which `_processFrame` has run, most recent first. -/
structure AnimState where
  last : ℚ
  fires : List ℚ

/-- One `_animate(timestamp)` callback: when
`elapsed = timestamp - lastFrameTime` reaches the frame interval, set
`lastFrameTime = timestamp - (elapsed % frameInterval)` and process a
frame; otherwise do nothing. -/
def animStep (I : ℚ) (s : AnimState) (t : ℚ) : AnimState :=
  if I ≤ t - s.last then ⟨t - jsMod (t - s.last) I, t :: s.fires⟩ else s

/-- Run the animation callback over a sequence of refresh timestamps. -/
def animRun (I last0 : ℚ) (ts : List ℚ) : AnimState :=
  ts.foldl (animStep I) ⟨last0, []⟩

lemma jsMod_nonneg {e I : ℚ} (hI : 0 < I) : 0 ≤ jsMod e I := by
  unfold jsMod
  have h := Int.floor_le (e / I)
  have h3 : (⌊e / I⌋ : ℚ) * I ≤ e / I * I := mul_le_mul_of_nonneg_right h (le_of_lt hI)
  rw [div_mul_cancel₀ e (ne_of_gt hI)] at h3
  have hc : I * (⌊e / I⌋ : ℚ) = (⌊e / I⌋ : ℚ) * I := mul_comm _ _
  rw [hc]
  linarith

lemma jsMod_lt {e I : ℚ} (hI : 0 < I) : jsMod e I < I := by
  unfold jsMod
  have h := Int.lt_floor_add_one (e / I)
  have h3 : e / I * I < ((⌊e / I⌋ : ℚ) + 1) * I := mul_lt_mul_of_pos_right h hI
  rw [div_mul_cancel₀ e (ne_of_gt hI)] at h3
  have hc : I * (⌊e / I⌋ : ℚ) = (⌊e / I⌋ : ℚ) * I := mul_comm _ _
  rw [hc]
  nlinarith

lemma animStep_fire_last {I : ℚ} (hI : 0 < I) (s : AnimState) (t : ℚ)
    (hfire : I ≤ t - s.last) :
    t - I < (animStep I s t).last ∧ (animStep I s t).last ≤ t
    ∧ (animStep I s t).fires = t :: s.fires
    ∧ s.last + I ≤ (animStep I s t).last := by
  unfold animStep
  rw [if_pos hfire]
  have hm0 := jsMod_nonneg (e := t - s.last) hI
  have hmI := jsMod_lt (e := t - s.last) hI
  refine ⟨by simpa using by linarith, by simpa using by linarith, rfl, ?_⟩
  show s.last + I ≤ t - jsMod (t - s.last) I
  have h1 : (1 : ℤ) ≤ ⌊(t - s.last) / I⌋ := by
    apply Int.le_floor.2
    rw [le_div_iff hI]
    push_cast
    linarith
  have h2 : (1 : ℚ) * I ≤ (⌊(t - s.last) / I⌋ : ℚ) * I := by
    apply mul_le_mul_of_nonneg_right _ (le_of_lt hI)
    exact_mod_cast h1
  unfold jsMod
  have hc : I * (⌊(t - s.last) / I⌋ : ℚ) = (⌊(t - s.last) / I⌋ : ℚ) * I := mul_comm _ _
  rw [hc]
  linarith

/-- The drift invariant of the animation loop: every recorded fire is at
least `(k-1)` intervals older than the current `lastFrameTime`, and two
fires `k` and `j` places apart in the history are more than `(k-j-1)`
intervals apart in time. -/
def AnimInv (I : ℚ) (s : AnimState) : Prop :=
  (∀ k, k < s.fires.length → s.fires.getD k 0 + ((k : ℚ) - 1) * I < s.last)
  ∧ (∀ j k, j < k → k < s.fires.length →
      s.fires.getD k 0 + ((k : ℚ) - (j : ℚ) - 1) * I < s.fires.getD j 0)

lemma animStep_inv {I : ℚ} (hI : 0 < I) {s : AnimState} (hs : AnimInv I s) (t : ℚ) :
    AnimInv I (animStep I s t) := by
  by_cases hfire : I ≤ t - s.last
  · obtain ⟨hgt, hle, hfs, hadv⟩ := animStep_fire_last hI s t hfire
    obtain ⟨hlink, hpair⟩ := hs
    constructor
    · intro k hk
      rw [hfs] at hk ⊢
      cases k with
      | zero =>
        simp only [List.getD_cons_zero]
        push_cast
        linarith
      | succ k2 =>
        simp only [List.getD_cons_succ]
        have hk2 : k2 < s.fires.length := by simpa using hk
        have hold := hlink k2 hk2
        push_cast
        linarith
    · intro j k hj hk
      rw [hfs] at hk ⊢
      cases j with
      | zero =>
        cases k with
        | zero => omega
        | succ k2 =>
          simp only [List.getD_cons_zero, List.getD_cons_succ]
          have hk2 : k2 < s.fires.length := by simpa using hk
          have hold := hlink k2 hk2
          push_cast
          linarith
      | succ j2 =>
        cases k with
        | zero => omega
        | succ k2 =>
          simp only [List.getD_cons_succ]
          have hold := hpair j2 k2 (by omega) (by simpa using hk)
          push_cast
          linarith
  · have : animStep I s t = s := by
      unfold animStep
      rw [if_neg hfire]
    rw [this]
    exact hs

lemma animRun_inv (I : ℚ) (hI : 0 < I) (last0 : ℚ) (ts : List ℚ) :
    AnimInv I (animRun I last0 ts) := by
  have hgen : ∀ (l : List ℚ) (s : AnimState), AnimInv I s →
      AnimInv I (l.foldl (animStep I) s) := by
    intro l
    induction l with
    | nil => intro s hs; exact hs
    | cons t l2 ih => intro s hs; exact ih _ (animStep_inv hI hs t)
  apply hgen
  constructor
  · intro k hk
    simp at hk
  · intro j k hj hk
    simp at hk

/-- Counterexample to C7 as stated: with a target of `F = 1` frame per
second (interval `1000/1` ms) and `lastFrameTime` initialized to `0`,
refresh timestamps `1999` then `2000` make the loop process a frame at both
timestamps: two invocations inside the single second `[1999, 2999]`,
exceeding `F = 1`.  The carried remainder (`1999 % 1000 = 999`) re-aligns
`lastFrameTime` to the grid, so the very next callback fires again. -/
theorem animate_throttle_counterexample :
    (animRun (1000 / (1 : ℚ)) 0 [1999, 2000]).fires = [2000, 1999]
    ∧ (∀ τ ∈ (animRun (1000 / (1 : ℚ)) 0 [1999, 2000]).fires,
        1999 ≤ τ ∧ τ ≤ 1999 + 1000) := by
  have e1 : ⌊(1999 - 0 : ℚ) / (1000 / 1)⌋ = 1 := by norm_num
  have h1 : animStep (1000 / (1 : ℚ)) ⟨0, []⟩ 1999 = ⟨1000, [1999]⟩ := by
    unfold animStep jsMod
    rw [if_pos (by norm_num)]
    simp only [AnimState.mk.injEq]
    norm_num
  have e2 : ⌊(2000 - 1000 : ℚ) / (1000 / 1)⌋ = 1 := by norm_num
  have h2 : animStep (1000 / (1 : ℚ)) ⟨1000, [1999]⟩ 2000 = ⟨2000, [2000, 1999]⟩ := by
    unfold animStep jsMod
    rw [if_pos (by norm_num)]
    simp only [AnimState.mk.injEq]
    norm_num
  have hrun : animRun (1000 / (1 : ℚ)) 0 [1999, 2000] = ⟨2000, [2000, 1999]⟩ := by
    unfold animRun
    rw [List.foldl_cons, h1, List.foldl_cons, h2, List.foldl_nil]
  rw [hrun]
  refine ⟨rfl, ?_⟩
  intro τ hτ
  simp only [List.mem_cons, List.not_mem_nil, or_false] at hτ
  rcases hτ with h | h <;> subst h <;> constructor <;> norm_num

/-- Amended C7: with a target of `F ≥ 1` frames per second (interval
`1000/F` ms), any window of one second contains at most `F + 1`
frame-processing invocations (the bound `F` of the original claim is off by
one because the sub-interval remainder is carried across frames); a firing
callback carries exactly the sub-interval remainder (the new
`lastFrameTime` lies in `(t - I, t]` and advances by at least one full
interval), and a callback below the interval changes nothing — skipped
frames are never queued. -/
theorem animate_throttle_amended (F : ℕ) (hF : 1 ≤ F) (last0 a : ℚ) (ts : List ℚ) :
    ((Finset.range (animRun (1000 / (F : ℚ)) last0 ts).fires.length).filter
      (fun k => a ≤ (animRun (1000 / (F : ℚ)) last0 ts).fires.getD k 0
        ∧ (animRun (1000 / (F : ℚ)) last0 ts).fires.getD k 0 ≤ a + 1000)).card ≤ F + 1
    ∧ (∀ (s : AnimState) (t : ℚ), (1000 / (F : ℚ)) ≤ t - s.last →
        t - 1000 / (F : ℚ) < (animStep (1000 / (F : ℚ)) s t).last
        ∧ (animStep (1000 / (F : ℚ)) s t).last ≤ t
        ∧ (animStep (1000 / (F : ℚ)) s t).fires = t :: s.fires
        ∧ s.last + 1000 / (F : ℚ) ≤ (animStep (1000 / (F : ℚ)) s t).last)
    ∧ (∀ (s : AnimState) (t : ℚ), ¬ (1000 / (F : ℚ)) ≤ t - s.last →
        animStep (1000 / (F : ℚ)) s t = s) := by
  have hFq : (0 : ℚ) < (F : ℚ) := by
    have : (1 : ℚ) ≤ (F : ℚ) := by exact_mod_cast hF
    linarith
  have hI : (0 : ℚ) < 1000 / (F : ℚ) := by positivity
  refine ⟨?_, fun s t hfire => animStep_fire_last hI s t hfire, fun s t hfire => by
    unfold animStep
    rw [if_neg hfire]⟩
  set s := animRun (1000 / (F : ℚ)) last0 ts with hs
  set I := 1000 / (F : ℚ) with hIdef
  have hFI : (F : ℚ) * I = 1000 := by
    rw [hIdef]
    field_simp
  have hpair := (animRun_inv I hI last0 ts).2
  set S := (Finset.range s.fires.length).filter
    (fun k => a ≤ s.fires.getD k 0 ∧ s.fires.getD k 0 ≤ a + 1000) with hS
  by_cases hne : S.Nonempty
  · have hmS : S.min' hne ∈ S := S.min'_mem hne
    have hMS : S.max' hne ∈ S := S.max'_mem hne
    set m := S.min' hne
    set M := S.max' hne
    have hmlen : m < s.fires.length := by
      have := (Finset.mem_filter.1 hmS).1
      simpa using this
    have hMlen : M < s.fires.length := by
      have := (Finset.mem_filter.1 hMS).1
      simpa using this
    have hmwin := (Finset.mem_filter.1 hmS).2
    have hMwin := (Finset.mem_filter.1 hMS).2
    have hmM : m ≤ M := S.min'_le M hMS
    have hMm : M - m ≤ F := by
      by_cases heq : m = M
      · omega
      · have hlt : m < M := by omega
        have hp := hpair m M hlt hMlen
        have h1000 : s.fires.getD m 0 - s.fires.getD M 0 ≤ 1000 := by
          have := hmwin.2
          have := hMwin.1
          linarith
        have hql : ((M : ℚ) - (m : ℚ) - 1) * I < (F : ℚ) * I := by
          calc ((M : ℚ) - (m : ℚ) - 1) * I
              < s.fires.getD m 0 - s.fires.getD M 0 := by linarith
            _ ≤ 1000 := h1000
            _ = (F : ℚ) * I := hFI.symm
        have hq : (M : ℚ) - (m : ℚ) - 1 < (F : ℚ) :=
          lt_of_mul_lt_mul_right (by linarith [hql]) (le_of_lt hI)
        have hcast : ((M - m : ℕ) : ℚ) = (M : ℚ) - (m : ℚ) := by
          push_cast [Nat.cast_sub (le_of_lt hlt)]
          ring
        have : ((M - m : ℕ) : ℚ) < (F : ℚ) + 1 := by
          rw [hcast]
          linarith
        have : (M - m : ℕ) < F + 1 := by exact_mod_cast this
        omega
    have hsub : S ⊆ Finset.Icc m M := by
      intro k hk
      rw [Finset.mem_Icc]
      exact ⟨S.min'_le k hk, S.le_max' k hk⟩
    calc S.card ≤ (Finset.Icc m M).card := Finset.card_le_card hsub
      _ = M + 1 - m := Nat.card_Icc m M
      _ ≤ F + 1 := by omega
  · rw [Finset.not_nonempty_iff_eq_empty] at hne
    rw [hne]
    simp

/-- Witness for the amended C7 at `F = 1` over the counterexample run. -/
theorem animate_throttle_amended_witness :
    ((Finset.range (animRun (1000 / ((1 : ℕ) : ℚ)) 0 [1999, 2000]).fires.length).filter
      (fun k => 1999 ≤ (animRun (1000 / ((1 : ℕ) : ℚ)) 0 [1999, 2000]).fires.getD k 0
        ∧ (animRun (1000 / ((1 : ℕ) : ℚ)) 0 [1999, 2000]).fires.getD k 0 ≤ 1999 + 1000)).card
      ≤ 1 + 1 :=
  (animate_throttle_amended 1 (by decide) 0 1999 [1999, 2000]).1

/-- The eight phases of the metamorphosis animation. -/
inductive Phase
  | start
  | chaos
  | order
  | converge
  | wave
  | filter
  | split
  | flow
deriving DecidableEq

/-- One `mainTimeline.add(...)` entry of `runAnimation`: its duration, the
phase its `onComplete` switches to (if any), and whether its `onComplete`
starts the flow loop. -/
structure TimelineItem where
  duration : ℚ
  setsPhase : Option Phase
  startsFlowLoop : Bool
deriving DecidableEq

/-- The timeline built by `runAnimation`, in `add` order. -/
def mainTimelineItems : List TimelineItem :=
  [⟨300, none, false⟩,
   ⟨400, none, false⟩,
   ⟨1, some Phase.chaos, false⟩,
   ⟨800, none, false⟩,
   ⟨300, none, false⟩,
   ⟨1, some Phase.order, false⟩,
   ⟨1500, none, false⟩,
   ⟨600, none, false⟩,
   ⟨1, some Phase.converge, false⟩,
   ⟨1200, none, false⟩,
   ⟨400, none, false⟩,
   ⟨1, some Phase.wave, false⟩,
   ⟨800, none, false⟩,
   ⟨300, none, false⟩,
   ⟨1, some Phase.filter, false⟩,
   ⟨1200, none, false⟩,
   ⟨400, none, false⟩,
   ⟨1, some Phase.split, false⟩,
   ⟨600, none, false⟩,
   ⟨600, none, false⟩,
   ⟨300, none, false⟩,
   ⟨1, some Phase.flow, false⟩,
   ⟨800, none, false⟩,
   ⟨2000, none, true⟩]

/-- The successive values of `currentPhase` while the timeline plays to
completion: `runAnimation` sets `start`, then each phase-marker entry fires
in timeline order. -/
def runPhaseTrace : List Phase :=
  Phase.start :: mainTimelineItems.filterMap TimelineItem.setsPhase

/-- The looping dash animation created by `startFlowLoop`. -/
structure FlowAnim where
  fromOffset : ℚ
  toOffset : ℚ
  duration : ℚ
  loop : Bool
deriving DecidableEq

/-- Function `startFlowLoop()`: a no-op unless the animator is running; otherwise an
infinite (`loop: true`) dash-offset animation over `[0, -(width + 50)]`. -/
def startFlowLoopOp (isRunning : Bool) (width : ℚ) : Option FlowAnim :=
  if isRunning then some ⟨0, -(width + 50), 2000, true⟩ else none

/-- C8: stepping the phase animator timeline to completion visits the
eight phases `start, chaos, order, converge, wave, filter, split, flow`
exactly once each, in that fixed order with none skipped, repeated or
revisited; the final timeline entry hands off to `startFlowLoop`, which
while the animator is running creates an infinite (`loop: true`)
dash-offset animation, and does nothing once the animator is stopped. -/
theorem metamorphosis_phase_spec (width : ℚ) :
    runPhaseTrace = [Phase.start, Phase.chaos, Phase.order, Phase.converge,
      Phase.wave, Phase.filter, Phase.split, Phase.flow]
    ∧ runPhaseTrace.Nodup
    ∧ (∀ p : Phase, p ∈ runPhaseTrace)
    ∧ mainTimelineItems.getLast?.map TimelineItem.startsFlowLoop = some true
    ∧ (startFlowLoopOp true width).map FlowAnim.loop = some true
    ∧ startFlowLoopOp false width = none := by
  refine ⟨rfl, by decide, ?_, rfl, rfl, rfl⟩
  intro p
  cases p <;> decide

/-- The hidden `<video>` element of the engine. -/
structure VideoEl where
  src : String
  paused : Bool
deriving DecidableEq

/-- The lifecycle-relevant state of an `AsciiVideoEngine`: the media
element, playing flag, animation-frame handle and the output surfaces. -/
structure Engine where
  video : Option VideoEl
  isPlaying : Bool
  rafId : Option ℕ
  canvas : Option Unit
  ctx : Option Unit
  outputCanvas : Option Unit
  outputCtx : Option Unit
  outputPre : Option Unit
deriving DecidableEq

/-- A JavaScript runtime error observable from the engine methods. -/
inductive JsError
  | typeError
deriving DecidableEq

/-- Method `pause()`: clears `isPlaying`, then calls `this.video.pause()` — which
throws a `TypeError` when the video has been nulled out — then cancels the
pending animation frame (the mutation made before the throw survives). -/
def Engine.pauseOp (e : Engine) : Engine × Option JsError :=
  match e.video with
  | none =>
    (⟨none, false, e.rafId, e.canvas, e.ctx, e.outputCanvas, e.outputCtx, e.outputPre⟩,
      some JsError.typeError)
  | some v =>
    (⟨some ⟨v.src, true⟩, false,
      (match e.rafId with
        | some _ => none
        | none => e.rafId),
      e.canvas, e.ctx, e.outputCanvas, e.outputCtx, e.outputPre⟩, none)

/-- Method `play()`: a no-op while playing; otherwise awaits `this.video.play()`
inside `try`/`catch` — a null video throws and is caught, leaving the
engine unchanged — and on success marks the engine playing and starts the
animation loop. -/
def Engine.playOp (e : Engine) : Engine :=
  if e.isPlaying then e
  else
    match e.video with
    | none => e
    | some v =>
      ⟨some ⟨v.src, false⟩, true, some 0,
        e.canvas, e.ctx, e.outputCanvas, e.outputCtx, e.outputPre⟩

/-- Method `destroy()`: `pause()`, release the media element (clear `src`, `load()`,
null the reference), detach the output canvas and `<pre>`, and null the
remaining surfaces; an exception from `pause()` would propagate before the
release. -/
def Engine.destroyOp (e : Engine) : Engine × Option JsError :=
  match e.pauseOp with
  | (e1, some er) => (e1, some er)
  | (e1, none) =>
    (⟨none, e1.isPlaying, e1.rafId, none, none, none, none, none⟩, none)

/-- An engine as built by the constructor in canvas render mode. -/
def initialEngine : Engine :=
  ⟨some ⟨"video.mp4", true⟩, false, none, some (), some (), some (), some (), none⟩

/-- Counterexample to C9 as stated: after `destroy()`, calling `pause()`
throws a `TypeError` (`this.video` is null and `pause()` has no
`try`/`catch`), so `pause()` after `destroy()` is not an error-free no-op. -/
theorem destroy_pause_counterexample :
    ((initialEngine.destroyOp).1.pauseOp).2 = some JsError.typeError := rfl

/-- Amended C9: `destroy()` is terminal — it releases the media element and
both output surfaces and raises no error itself; afterwards `play()` is a
genuine no-op (the internal rejection is caught), and `pause()` leaves the
state unchanged but raises a `TypeError` instead of returning silently. -/
theorem destroy_terminal_amended (e : Engine) (v : VideoEl) (hv : e.video = some v) :
    (e.destroyOp).2 = none
    ∧ (e.destroyOp).1.video = none
    ∧ (e.destroyOp).1.outputCanvas = none
    ∧ (e.destroyOp).1.outputPre = none
    ∧ (e.destroyOp).1.canvas = none
    ∧ (e.destroyOp).1.ctx = none
    ∧ Engine.playOp (e.destroyOp).1 = (e.destroyOp).1
    ∧ (Engine.pauseOp (e.destroyOp).1).1 = (e.destroyOp).1
    ∧ (Engine.pauseOp (e.destroyOp).1).2 = some JsError.typeError := by
  obtain ⟨vid, ip, rid, cv, cx, oc, octx, op⟩ := e
  simp only [Engine.mk.injEq] at hv
  rcases hv with rfl
  cases rid <;>
    simp [Engine.destroyOp, Engine.pauseOp, Engine.playOp]

/-- Witness for the amended C9 on the freshly constructed engine. -/
theorem destroy_terminal_amended_witness :
    (initialEngine.destroyOp).1.video = none
    ∧ Engine.playOp (initialEngine.destroyOp).1 = (initialEngine.destroyOp).1
    ∧ (Engine.pauseOp (initialEngine.destroyOp).1).2 = some JsError.typeError := by
  have h := destroy_terminal_amended initialEngine ⟨"video.mp4", true⟩ rfl
  exact ⟨h.2.1, h.2.2.2.2.2.2.1, h.2.2.2.2.2.2.2.2⟩
